import Mathlib

/-!
ECR scan results plugin: registry access and report ordering.

A shallow embedding of `src/registry/ecr.go` (locator parsing, paginated
retrieval of scan findings) and of the ordering functions of
`src/report/annotation.go`, with the properties the specification states
about them.

Conventions of the embedding.
* A Go `string` is a Lean `String`; a Go slice is a `List`.
* A Go result pair `(value, error)` is a Lean pair of options: `none` on the
  left is the `nil` pointer, `none` on the right is the `nil` error.
* The AWS SDK's `*string` fields that the code dereferences unconditionally
  (`*finding.Name`, `*finding.Title`, `*page.ImageScanFindings`) are carried
  as present values.
* Loops that talk to the backend take a step budget; running out of budget is
  the outer `none`.
* The library's `slices.SortFunc` is embedded as far as the first round of its
  loop (the insertion sort of short slices and the early return of a slice
  found sorted); what it does beyond that is a parameter of the sorting
  functions, held to what the library's documentation promises.
-/

namespace EcrScanResults

/-! ## Go values -/

/-- A Go `error`, identified with its message. -/
abbrev GoError := String

/-! ## `registry`: data model of the scan backend -/

/-- The SDK record `types.ImageScanFinding` (basic finding, identified by name). -/
structure ImageScanFinding where
  Name : String
  Severity : String
  Description : String
  Uri : String
  deriving DecidableEq, Repr

/-- The SDK record `types.EnhancedImageScanFinding` (identified by title). -/
structure EnhancedImageScanFinding where
  Title : String
  Severity : String
  Description : String
  FindingArn : String
  Status : String
  deriving DecidableEq, Repr

/-- The SDK record `types.ImageScanFindings`; `FindingSeverityCounts` is the Go
map `map[string]int32`, kept as its list of entries. -/
structure ImageScanFindings where
  EnhancedFindings : List EnhancedImageScanFinding
  FindingSeverityCounts : List (String × Int)
  Findings : List ImageScanFinding
  ImageScanCompletedAt : Option Int
  VulnerabilitySourceUpdatedAt : Option Int
  deriving DecidableEq, Repr

/-- The zero value `types.ImageScanFindings{}`. -/
def ImageScanFindings.zero : ImageScanFindings :=
  { EnhancedFindings := [], FindingSeverityCounts := [], Findings := [],
    ImageScanCompletedAt := none, VulnerabilitySourceUpdatedAt := none }

/-- `type ScanFindings struct { types.ImageScanFindings }`. -/
structure ScanFindings where
  ImageScanFindings : ImageScanFindings
  deriving DecidableEq, Repr

/-- `type RegistryInfo struct` of `ecr.go`. -/
structure RegistryInfo where
  RegistryID : String
  Region : String
  Name : String
  Tag : String
  deriving DecidableEq, Repr

/-- The zero value `RegistryInfo{}`. -/
def RegistryInfo.zero : RegistryInfo :=
  { RegistryID := "", Region := "", Name := "", Tag := "" }

/-- The SDK request `ecr.DescribeImageScanFindingsInput`. -/
structure DescribeImageScanFindingsInput where
  RegistryId : String
  RepositoryName : String
  ImageDigest : String
  NextToken : Option String
  deriving DecidableEq, Repr

/-- The SDK response `ecr.DescribeImageScanFindingsOutput`. -/
structure DescribeImageScanFindingsOutput where
  ImageScanFindings : ImageScanFindings
  NextToken : Option String
  deriving DecidableEq, Repr

/-- The backend operation `Client.DescribeImageScanFindings`: one request, one
response or error. -/
abbrev ScanBackend := DescribeImageScanFindingsInput → Except GoError DescribeImageScanFindingsOutput

/-! ## The SDK paginator

`ecr.NewDescribeImageScanFindingsPaginator` with its default options: the
paginator remembers whether the first request is still to be made and the token
of the last response. -/

/-- State of `ecr.DescribeImageScanFindingsPaginator`. -/
structure Paginator where
  params : DescribeImageScanFindingsInput
  firstPage : Bool
  nextToken : Option String
  deriving DecidableEq, Repr

/-- `ecr.NewDescribeImageScanFindingsPaginator(client, params)`. -/
def NewDescribeImageScanFindingsPaginator (params : DescribeImageScanFindingsInput) : Paginator :=
  { params := params, firstPage := true, nextToken := params.NextToken }

/-- `HasMorePages`: `p.firstPage || (p.nextToken != nil && len(*p.nextToken) != 0)`. -/
def HasMorePages (pg : Paginator) : Bool :=
  pg.firstPage ||
    (match pg.nextToken with
     | some t => t != ""
     | none => false)

/-- `NextPage`: refuse when there are no more pages; else send the request with
the remembered token and, on success, clear `firstPage` and remember the
response's token. Returns the Go pair `(page, err)` and the paginator
afterwards. -/
def NextPage (client : ScanBackend) (pg : Paginator) :
    (Option DescribeImageScanFindingsOutput × Option GoError) × Paginator :=
  if HasMorePages pg then
    match client { pg.params with NextToken := pg.nextToken } with
    | .error err => ((none, some err), pg)
    | .ok result => ((some result, none), { pg with firstPage := false, nextToken := result.NextToken })
  else ((none, some "no more pages available"), pg)

/-! ## `GetScanFindings` -/

/-- The three variables the page loop of `GetScanFindings` updates. -/
structure PageLoopState where
  findings : List ImageScanFinding
  enhancedFindings : List EnhancedImageScanFinding
  imageScanFindings : ImageScanFindings
  deriving DecidableEq, Repr

/-- The loop `for pg.HasMorePages() { ... }` of `GetScanFindings`, with a budget
of `fuel` iterations (`none`: the budget ran out with pages still to fetch).
`some (.error err)` is the early `return nil, err`. -/
def pageLoop (client : ScanBackend) : Nat → Paginator → PageLoopState → Option (Except GoError PageLoopState)
  | 0, pg, st => if HasMorePages pg then none else some (.ok st)
  | fuel + 1, pg, st =>
    if HasMorePages pg then
      match NextPage client pg with
      | ((_, some err), _) => some (.error err)
      | ((none, none), _) => some (.ok st)
      | ((some page, none), pg1) =>
        let kept : ImageScanFindings :=
          if !HasMorePages pg1 then page.ImageScanFindings else st.imageScanFindings
        pageLoop client fuel pg1
          { findings := st.findings ++ page.ImageScanFindings.Findings,
            enhancedFindings := st.enhancedFindings ++ page.ImageScanFindings.EnhancedFindings,
            imageScanFindings := kept }
    else some (.ok st)

/-- `slices.Contains(ignoreList, name)`. -/
def slicesContains (ignoreList : List String) (name : String) : Bool :=
  ignoreList.any (fun entry => entry == name)

/-- The loop building `filteredFindings`. -/
def filterFindings (ignoreList : List String) (findings : List ImageScanFinding) : List ImageScanFinding :=
  findings.foldl
    (fun filtered finding =>
      if !slicesContains ignoreList finding.Name then filtered ++ [finding] else filtered) []

/-- The loop building `filteredEnhancedFindings`. -/
def filterEnhancedFindings (ignoreList : List String) (findings : List EnhancedImageScanFinding) :
    List EnhancedImageScanFinding :=
  findings.foldl
    (fun filtered finding =>
      if !slicesContains ignoreList finding.Title then filtered ++ [finding] else filtered) []

/-- `func (r *RegistryScan) GetScanFindings(ctx, digestInfo, ignoreList)`. -/
def GetScanFindings (client : ScanBackend) (fuel : Nat) (digestInfo : RegistryInfo)
    (ignoreList : List String) : Option (Option ScanFindings × Option GoError) :=
  let pg := NewDescribeImageScanFindingsPaginator
    { RegistryId := digestInfo.RegistryID, RepositoryName := digestInfo.Name,
      ImageDigest := digestInfo.Tag, NextToken := none }
  match pageLoop client fuel pg
      { findings := [], enhancedFindings := [], imageScanFindings := ImageScanFindings.zero } with
  | none => none
  | some (.error err) => some (none, some err)
  | some (.ok st) =>
    let filteredFindings := filterFindings ignoreList st.findings
    let filteredEnhancedFindings := filterEnhancedFindings ignoreList st.enhancedFindings
    some (some { ImageScanFindings :=
                  { st.imageScanFindings with
                    Findings := filteredFindings,
                    EnhancedFindings := filteredEnhancedFindings } }, none)

/-! ## `regexp`: the fragment of the pattern language used by `registryImageExpr`

Go's `regexp` returns the match a backtracking engine finds first
(leftmost-first, greedy quantifiers prefer the longer repetition). The matcher
below is that backtracking search, written with a success continuation. -/

/-- A pattern item matching one character. -/
inductive CharClass where
  /-- a literal character, also written escaped as in `\.` -/
  | lit (c : Char)
  /-- the dot: any character but the line feed (no `s` flag) -/
  | anyNotNL
  /-- the negated class `[^c]` -/
  | notChr (c : Char)
  deriving DecidableEq, Repr

/-- Whether a one-character item accepts a character. -/
def CharClass.test : CharClass → Char → Bool
  | .lit c, x => x == c
  | .anyNotNL, x => x != '\n'
  | .notChr c, x => x != c

/-- Pattern syntax. -/
inductive Regex where
  /-- the empty pattern -/
  | empty
  /-- one character of a class -/
  | one (cc : CharClass)
  /-- the greedy repetition `cc+` -/
  | plus (cc : CharClass)
  /-- concatenation -/
  | cat (r s : Regex)
  /-- the capturing group number `i` -/
  | capture (i : Nat) (r : Regex)
  /-- the greedy option `(?:r)?` -/
  | optional (r : Regex)
  /-- the anchor `^` (no `m` flag: beginning of text) -/
  | bol
  /-- the anchor `$` (no `m` flag: end of text) -/
  | eol
  deriving DecidableEq, Repr

/-- A run of literal characters. -/
def Regex.lits : List Char → Regex
  | [] => .empty
  | c :: cs => .cat (.one (.lit c)) (Regex.lits cs)

/-- Position of the matcher: offset from the start of the text and the text
still ahead. -/
structure Cursor where
  pos : Nat
  rest : List Char
  deriving DecidableEq, Repr

/-- Text captured so far by each group. -/
abbrev Caps := Nat → Option (List Char)

/-- What remains to be matched after the current item. -/
abbrev Cont := Cursor → Caps → Option Caps

/-- Greedy repetition after the first character: take one more character when
the class allows and the remainder then matches, else stop here. -/
def starGo (cc : CharClass) : List Char → Nat → Caps → Cont → Option Caps
  | [], pos, caps, k => k ⟨pos, []⟩ caps
  | c :: cs, pos, caps, k =>
    if cc.test c then
      match starGo cc cs (pos + 1) caps k with
      | some r => some r
      | none => k ⟨pos, c :: cs⟩ caps
    else k ⟨pos, c :: cs⟩ caps

/-- Backtracking match of a pattern at a cursor. -/
def Regex.run : Regex → Cursor → Caps → Cont → Option Caps
  | .empty, cur, caps, k => k cur caps
  | .one cc, cur, caps, k =>
    match cur.rest with
    | c :: cs => if cc.test c then k ⟨cur.pos + 1, cs⟩ caps else none
    | [] => none
  | .plus cc, cur, caps, k =>
    match cur.rest with
    | c :: cs => if cc.test c then starGo cc cs (cur.pos + 1) caps k else none
    | [] => none
  | .cat r s, cur, caps, k => r.run cur caps (fun cur1 caps1 => s.run cur1 caps1 k)
  | .capture i r, cur, caps, k =>
    r.run cur caps (fun cur1 caps1 =>
      k cur1 (Function.update caps1 i (some (cur.rest.take (cur.rest.length - cur1.rest.length)))))
  | .optional r, cur, caps, k =>
    match r.run cur caps k with
    | some res => some res
    | none => k cur caps
  | .bol, cur, caps, k => if cur.pos = 0 then k cur caps else none
  | .eol, cur, caps, k => if cur.rest = [] then k cur caps else none

/-- Leftmost search: try the pattern at each offset in turn. -/
def Regex.findFrom (re : Regex) : Nat → List Char → Option Caps
  | pos, [] => re.run ⟨pos, []⟩ (fun _ => none) (fun _ caps => some caps)
  | pos, c :: cs =>
    match re.run ⟨pos, c :: cs⟩ (fun _ => none) (fun _ caps => some caps) with
    | some res => some res
    | none => Regex.findFrom re (pos + 1) cs

/-- The text `FindStringSubmatch` reports for a group: the captured text, or the
empty string for a group that took no part in the match. -/
def groupText (group : Option (List Char)) : String :=
  match group with
  | some t => String.mk t
  | none => ""

/-- `(*Regexp).FindStringSubmatch`: `nil` when there is no match, else the text
of the whole match followed by the text of each group (empty for a group that
took no part in the match). `numSubexp` is the number of groups. -/
def FindStringSubmatch (re : Regex) (numSubexp : Nat) (s : String) : Option (List String) :=
  match re.findFrom 0 s.data with
  | none => none
  | some caps => some ((List.range (numSubexp + 1)).map (fun i => groupText (caps i)))

/-! ## The matcher: what a successful run has consumed -/

/-- `re.Spans pos caps xs after caps1`: started at offset `pos` with the text
`xs ++ after` ahead and the captures `caps`, the pattern can consume exactly
`xs`, leaving the captures `caps1`. -/
def Regex.Spans : Regex → Nat → Caps → List Char → List Char → Caps → Prop
  | .empty, _, caps, xs, _, caps1 => xs = [] ∧ caps1 = caps
  | .one cc, _, caps, xs, _, caps1 => ∃ c, xs = [c] ∧ cc.test c = true ∧ caps1 = caps
  | .plus cc, _, caps, xs, _, caps1 => xs ≠ [] ∧ (∀ c ∈ xs, cc.test c = true) ∧ caps1 = caps
  | .cat r s, pos, caps, xs, after, caps1 =>
    ∃ xs1 xs2 capsm, xs = xs1 ++ xs2 ∧ r.Spans pos caps xs1 (xs2 ++ after) capsm ∧
      s.Spans (pos + xs1.length) capsm xs2 after caps1
  | .capture i r, pos, caps, xs, after, caps1 =>
    ∃ capsm, r.Spans pos caps xs after capsm ∧ caps1 = Function.update capsm i (some xs)
  | .optional r, pos, caps, xs, after, caps1 =>
    r.Spans pos caps xs after caps1 ∨ (xs = [] ∧ caps1 = caps)
  | .bol, pos, caps, xs, _, caps1 => xs = [] ∧ pos = 0 ∧ caps1 = caps
  | .eol, _, caps, xs, after, caps1 => xs = [] ∧ after = [] ∧ caps1 = caps

/-! ## `RegistryInfoFromURL` and `String` -/

/-- The pattern
`^(?P<registryId>[^.]+)\.dkr\.ecr\.(?P<region>[^.]+).amazonaws.com/(?P<repoName>[^:]+)(?::(?P<tag>.+))?$`;
group 0 is the whole match. The two dots around `amazonaws` are unescaped in
the source. -/
def registryImageExpr : Regex :=
  .capture 0
    (.cat .bol
    (.cat (.capture 1 (.plus (.notChr '.')))
    (.cat (Regex.lits ".dkr.ecr.".data)
    (.cat (.capture 2 (.plus (.notChr '.')))
    (.cat (.one .anyNotNL)
    (.cat (Regex.lits "amazonaws".data)
    (.cat (.one .anyNotNL)
    (.cat (Regex.lits "com/".data)
    (.cat (.capture 3 (.plus (.notChr ':')))
    (.cat (.optional (.cat (.one (.lit ':')) (.capture 4 (.plus .anyNotNL))))
          .eol))))))))))

/-- `registryImageExpr.SubexpNames()`. -/
def SubexpNames : List String := ["", "registryId", "region", "repoName", "tag"]

/-- `func (i RegistryInfo) String() string`:
`fmt.Sprintf("%s.dkr.ecr.%s.amazonaws.com/%s:%s", ...)`. -/
def RegistryInfo.String (i : RegistryInfo) : String :=
  i.RegistryID ++ ".dkr.ecr." ++ i.Region ++ ".amazonaws.com/" ++ i.Name ++ ":" ++ i.Tag

/-- The body of the `for i, value := range match` loop: the `switch nm`. -/
def assignSubexp (info : RegistryInfo) (nm value : String) : RegistryInfo :=
  if nm = "registryId" then { info with RegistryID := value }
  else if nm = "region" then { info with Region := value }
  else if nm = "repoName" then { info with Name := value }
  else if nm = "tag" then { info with Tag := value }
  else info

/-- `func RegistryInfoFromURL(url string) (RegistryInfo, error)`. -/
def RegistryInfoFromURL (url : String) : RegistryInfo × Option GoError :=
  let info := RegistryInfo.zero
  let names := SubexpNames
  match FindStringSubmatch registryImageExpr 4 url with
  | none => (info, some ("invalid registry URL: " ++ url))
  | some submatch =>
    ((names.zip submatch).foldl (fun acc p => assignSubexp acc p.1 p.2) info, none)

/-! ## `finding`: the records the report orders -/

/-- Modelled from the spec: the ignore rule `findingconfig.Ignore` (its package
is not among the sources): an identity string and an optional expiry time. -/
structure Ignore where
  ID : String
  Until : Option Int
  deriving DecidableEq, Repr

/-- Modelled from the spec: the score record `finding.CVSSScore` (its package
is not among the sources): an optional decimal score, carried as the rational
it denotes, and a vector string. -/
structure CVSSScore where
  Score : Option ℚ
  Vector : String
  deriving DecidableEq, Repr

/-- Modelled from the spec: the record `finding.Detail` (its package is not
among the sources), with the fields the tests populate. -/
structure Detail where
  Name : String
  Description : String
  URI : String
  Severity : String
  PackageName : String
  PackageVersion : String
  CVSS2 : CVSSScore
  CVSS3 : CVSSScore
  Ignore : Option Ignore
  deriving DecidableEq, Repr

/-! ## `report`: ordering of findings -/

/-- `strings.Compare(a, b)`: `0` when `a == b`, `-1` when `a < b`, else `+1`.
Go orders strings byte by byte, which for UTF-8 text is the lexicographic order
of the character sequences. -/
def stringsCompare (a b : String) : Int :=
  if a = b then 0 else if a.data < b.data then -1 else 1

/-- `decimal.Decimal.Cmp`: -1, 0 or 1 as the receiver is less than, equal to or
greater than the argument. -/
def decimalCmp (a b : ℚ) : Int :=
  if a < b then -1 else if a = b then 0 else 1

/-- `func rankSeverity(f types.FindingSeverity) int`. -/
def rankSeverity (f : String) : Int :=
  if f = "CRITICAL" then 0
  else if f = "HIGH" then 1
  else if f = "MEDIUM" then 2
  else if f = "LOW" then 3
  else if f = "INFORMATIONAL" then 4
  else if f = "UNDEFINED" then 5
  else 100

/-- `func compareSeverities(a, b types.FindingSeverity) int`. -/
def compareSeverities (a b : String) : Int :=
  let rank := rankSeverity a - rankSeverity b
  if rank ≠ 0 then rank
  else stringsCompare a b

/-- `func compareCVSSScore(a, b finding.CVSSScore) int`. -/
def compareCVSSScore (a b : CVSSScore) : Int :=
  match a.Score, b.Score with
  | none, none => 0
  | none, some _ => -1
  | some _, none => 1
  | some x, some y => decimalCmp x y

/-- The comparison closure passed to `slices.SortFunc` in `sortFindings`. -/
def sortFindingsCmp (a b : Detail) : Int :=
  let sevRank := compareSeverities a.Severity b.Severity
  if sevRank ≠ 0 then sevRank
  else
    let cvss3 := compareCVSSScore a.CVSS3 b.CVSS3
    if cvss3 ≠ 0 then cvss3 * -1
    else
      let cvss2 := compareCVSSScore a.CVSS2 b.CVSS2
      if cvss2 ≠ 0 then cvss2 * -1
      else stringsCompare b.Name a.Name

/-- The inner loop of the library's `insertionSortCmpFunc`: the new element
`x` stands right of the sorted elements `left` (listed nearest first) and is
swapped leftwards while `cmp(x, neighbour) < 0`. The result lists the elements
from right to left. -/
def sinkLeft {α : Type} (cmp : α → α → Int) (x : α) : List α → List α
  | [] => [x]
  | y :: left => if cmp x y < 0 then y :: sinkLeft cmp x left else x :: y :: left

/-- The library's `insertionSortCmpFunc` over a whole slice. -/
def insertionSortCmpFunc {α : Type} (cmp : α → α → Int) (data : List α) : List α :=
  (data.foldl (fun sortedRev x => sinkLeft cmp x sortedRev) []).reverse

/-- The library's `sortedHint`. -/
inductive sortedHint where
  | unknownHint
  | increasingHint
  | decreasingHint
  deriving DecidableEq, Repr

/-- The test `cmp(data[i], data[j]) < 0` of the library's routines. -/
def lessAt {α : Type} (cmp : α → α → Int) (data : List α) (i j : Nat) : Bool :=
  match data[i]?, data[j]? with
  | some u, some v => decide (cmp u v < 0)
  | _, _ => false

/-- The library's `order2CmpFunc(data, a, b, swaps, cmp)`: the two indices with
the smaller element first, and the counter `*swaps` afterwards. -/
def order2CmpFunc {α : Type} (cmp : α → α → Int) (data : List α) (a b swaps : Nat) :
    Nat × Nat × Nat :=
  if lessAt cmp data b a then (b, a, swaps + 1) else (a, b, swaps)

/-- The library's `medianCmpFunc(data, a, b, c, swaps, cmp)`: the index of the
median of three elements, and the counter afterwards. -/
def medianCmpFunc {α : Type} (cmp : α → α → Int) (data : List α) (a b c swaps : Nat) : Nat × Nat :=
  let first := order2CmpFunc cmp data a b swaps
  let second := order2CmpFunc cmp data first.2.1 c first.2.2
  let third := order2CmpFunc cmp data first.1 second.1 second.2.2
  (third.2.1, third.2.2)

/-- The library's `medianAdjacentCmpFunc(data, a, swaps, cmp)`. -/
def medianAdjacentCmpFunc {α : Type} (cmp : α → α → Int) (data : List α) (a swaps : Nat) :
    Nat × Nat :=
  medianCmpFunc cmp data (a - 1) a (a + 1) swaps

/-- The library's `choosePivotCmpFunc(data, a, b, cmp)`: the pivot index and
the hint drawn from the number of swaps (`shortestNinther` is 50, `maxSwaps`
is 12). -/
def choosePivotCmpFunc {α : Type} (cmp : α → α → Int) (data : List α) (a b : Nat) :
    Nat × sortedHint :=
  let l := b - a
  let i := a + l / 4 * 1
  let j := a + l / 4 * 2
  let k := a + l / 4 * 3
  let chosen : Nat × Nat :=
    if l ≥ 8 then
      let ninther : (Nat × Nat × Nat) × Nat :=
        if l ≥ 50 then
          let mi := medianAdjacentCmpFunc cmp data i 0
          let mj := medianAdjacentCmpFunc cmp data j mi.2
          let mk := medianAdjacentCmpFunc cmp data k mj.2
          ((mi.1, mj.1, mk.1), mk.2)
        else ((i, j, k), 0)
      medianCmpFunc cmp data ninther.1.1 ninther.1.2.1 ninther.1.2.2 ninther.2
    else (j, 0)
  if chosen.2 = 0 then (chosen.1, sortedHint.increasingHint)
  else if chosen.2 = 12 then (chosen.1, sortedHint.decreasingHint)
  else (chosen.1, sortedHint.unknownHint)

/-- The first scan of the library's `partialInsertionSortCmpFunc`, which
advances while `cmp(data[i], data[i-1]) < 0` fails: whether it reaches the end
of the slice, that is, whether no element is less than its left neighbour. -/
def adjacentOrdered {α : Type} (cmp : α → α → Int) : List α → Bool
  | [] => true
  | [_] => true
  | u :: v :: rest => !decide (cmp v u < 0) && adjacentOrdered cmp (v :: rest)

/-- Counting the bits of `n` by halving, at most `fuel` times. -/
def bitsLenAux : Nat → Nat → Nat
  | 0, _ => 0
  | fuel + 1, n => if n = 0 then 0 else bitsLenAux fuel (n / 2) + 1

/-- `bits.Len(uint(n))`: the number of bits of `n`. -/
def bitsLen (n : Nat) : Nat :=
  bitsLenAux n n

/-- `slices.SortFunc(x, cmp)`, that is `pdqsortCmpFunc(x, 0, n, bits.Len(uint(n)), cmp)`,
embedded as far as the first round of its loop: a slice of at most twelve
elements is sorted by `insertionSortCmpFunc`; a longer slice for which
`choosePivotCmpFunc` hints at increasing order and in which no element is less
than its left neighbour is returned as it is (`partialInsertionSortCmpFunc`
reports it sorted). Everything else the library does (the heap sort when the
limit is used up, pattern breaking, reversing a decreasing slice, the shifting
part of the partial insertion sort, partitioning and the later rounds) is not
embedded: it is the parameter `otherPhases`, a function of the comparison and
the slice. -/
def slicesSortFunc {α : Type} (otherPhases : (α → α → Int) → List α → List α)
    (cmp : α → α → Int) (x : List α) : List α :=
  let n := x.length
  let limit := bitsLen n
  if n ≤ 12 then insertionSortCmpFunc cmp x
  else if limit = 0 then otherPhases cmp x
  else
    match choosePivotCmpFunc cmp x 0 n with
    | (_, sortedHint.increasingHint) =>
      if adjacentOrdered cmp x then x else otherPhases cmp x
    | (_, _) => otherPhases cmp x

/-- `func sortFindings(findings []finding.Detail) []finding.Detail`: sort a
clone of the input. `otherPhases` is the part of the library's sort that is not
embedded. -/
def sortFindings (otherPhases : (Detail → Detail → Int) → List Detail → List Detail)
    (findings : List Detail) : List Detail :=
  let sorted := findings
  slicesSortFunc otherPhases sortFindingsCmp sorted

/-! ## The ordering in the words of the specification -/

/-- A score that puts its finding strictly earlier in descending order: the
higher of two scores, or a present score against a missing one. -/
def scoreEarlier (x y : CVSSScore) : Bool :=
  match x.Score, y.Score with
  | some p, some q => decide (q < p)
  | some _, none => true
  | none, _ => false

/-- Two scores that tie: equal, or both missing. -/
def scoreTie (x y : CVSSScore) : Bool :=
  match x.Score, y.Score with
  | some p, some q => decide (p = q)
  | none, none => true
  | _, _ => false

/-- The lower three levels of the comparison: CVSS3 descending, CVSS2
descending, name descending, missing scores last. -/
def scoresNoLater (a b : Detail) : Prop :=
  scoreEarlier a.CVSS3 b.CVSS3 = true ∨
    (scoreTie a.CVSS3 b.CVSS3 = true ∧
      (scoreEarlier a.CVSS2 b.CVSS2 = true ∨
        (scoreTie a.CVSS2 b.CVSS2 = true ∧ b.Name ≤ a.Name)))

/-- The four-level comparison of the specification: `a` is ordered no later
than `b`. The severity level is the rule of its item 1, the rank and, among
severities of equal rank, the alphabetical order (`compareSeverities`: "sort
severity strings by rank, then alphabetically"); then CVSS3 descending, CVSS2
descending and name descending. -/
def noLater (a b : Detail) : Prop :=
  rankSeverity a.Severity < rankSeverity b.Severity ∨
    (rankSeverity a.Severity = rankSeverity b.Severity ∧
      (a.Severity < b.Severity ∨ (a.Severity = b.Severity ∧ scoresNoLater a b)))

instance (a b : Detail) : Decidable (scoresNoLater a b) := by
  unfold scoresNoLater; infer_instance

instance (a b : Detail) : Decidable (noLater a b) := by
  unfold noLater; infer_instance

/-! ## What `slices.SortFunc` asks of its comparison -/

/-- A comparison function that is a weak ordering, as `slices.SortFunc`
requires: swapping the arguments swaps the sign, and "not greater" is
transitive. -/
structure IsWeakOrderCmp {α : Type} (cmp : α → α → Int) : Prop where
  swap_neg : ∀ a b, cmp a b < 0 ↔ 0 < cmp b a
  le_trans : ∀ a b c, cmp a b ≤ 0 → cmp b c ≤ 0 → cmp a c ≤ 0

/-- Two comparisons in sequence: the first decides unless it reports a tie. -/
def lexCmp {α : Type} (first second : α → α → Int) (a b : α) : Int :=
  if first a b ≠ 0 then first a b else second a b

/-- What the documentation of `slices.SortFunc` promises of the library's sort,
here of its part that is not embedded: for a comparison that is a weak
ordering, the result is a rearrangement of the slice in ascending order. -/
def SortsAscending {α : Type} (otherPhases : (α → α → Int) → List α → List α) : Prop :=
  ∀ cmp : α → α → Int, IsWeakOrderCmp cmp → ∀ x : List α,
    (otherPhases cmp x).Perm x ∧ (otherPhases cmp x).Pairwise (fun a b => cmp a b ≤ 0)

/-! ## What the backend serves, stated apart from the loop -/

/-- The request `GetScanFindings` sends for a page token. -/
def scanRequest (digestInfo : RegistryInfo) (token : Option String) : DescribeImageScanFindingsInput :=
  { RegistryId := digestInfo.RegistryID, RepositoryName := digestInfo.Name,
    ImageDigest := digestInfo.Tag, NextToken := token }

/-- A response that names a successor page: its token is present and not empty. -/
def hasNextToken (page : DescribeImageScanFindingsOutput) : Bool :=
  match page.NextToken with
  | some t => t != ""
  | none => false

/-- `FetchesPages client digestInfo token pages`: asked from `token` on, the
backend answers every request and `pages` is the sequence of its answers, each
page but the last naming the token of the next, the last naming none. -/
inductive FetchesPages (client : ScanBackend) (digestInfo : RegistryInfo) :
    Option String → List DescribeImageScanFindingsOutput → Prop where
  | last (token : Option String) (page : DescribeImageScanFindingsOutput) :
      client (scanRequest digestInfo token) = .ok page → hasNextToken page = false →
      FetchesPages client digestInfo token [page]
  | next (token : Option String) (page : DescribeImageScanFindingsOutput)
      (pages : List DescribeImageScanFindingsOutput) :
      client (scanRequest digestInfo token) = .ok page → hasNextToken page = true →
      FetchesPages client digestInfo page.NextToken pages →
      FetchesPages client digestInfo token (page :: pages)

/-- `FetchFails client digestInfo token n err`: asked from `token` on, the
backend answers `n` requests with pages that each name a successor and fails
the next request with `err`. -/
inductive FetchFails (client : ScanBackend) (digestInfo : RegistryInfo) :
    Option String → Nat → GoError → Prop where
  | here (token : Option String) (err : GoError) :
      client (scanRequest digestInfo token) = .error err →
      FetchFails client digestInfo token 0 err
  | later (token : Option String) (page : DescribeImageScanFindingsOutput) (n : Nat) (err : GoError) :
      client (scanRequest digestInfo token) = .ok page → hasNextToken page = true →
      FetchFails client digestInfo page.NextToken n err →
      FetchFails client digestInfo token (n + 1) err

/-- All basic findings of a page sequence, in page order. -/
def allFindings (pages : List DescribeImageScanFindingsOutput) : List ImageScanFinding :=
  (pages.map (fun page => page.ImageScanFindings.Findings)).flatten

/-- All enhanced findings of a page sequence, in page order. -/
def allEnhancedFindings (pages : List DescribeImageScanFindingsOutput) : List EnhancedImageScanFinding :=
  (pages.map (fun page => page.ImageScanFindings.EnhancedFindings)).flatten

/-! ## Sample data -/

/-- A basic finding with the given name and severity. -/
def sampleFinding (name severity : String) : ImageScanFinding :=
  { Name := name, Severity := severity, Description := "", Uri := "" }

/-- An enhanced finding with the given title and severity. -/
def sampleEnhanced (title severity : String) : EnhancedImageScanFinding :=
  { Title := title, Severity := severity, Description := "", FindingArn := "", Status := "ACTIVE" }

/-- First page of the sample scan: names the token `"t2"`. -/
def samplePage1 : DescribeImageScanFindingsOutput :=
  { ImageScanFindings :=
      { EnhancedFindings := [sampleEnhanced "CVE-2019-5188 - e2fsprogs" "HIGH"],
        FindingSeverityCounts := [("HIGH", 7)],
        Findings := [sampleFinding "CVE-2019-5188" "HIGH", sampleFinding "CVE-2019-5200" "CRITICAL"],
        ImageScanCompletedAt := some 1, VulnerabilitySourceUpdatedAt := none },
    NextToken := some "t2" }

/-- Second and last page of the sample scan. -/
def samplePage2 : DescribeImageScanFindingsOutput :=
  { ImageScanFindings :=
      { EnhancedFindings := [sampleEnhanced "CVE-2019-5189 - e2fsprogs" "HIGH"],
        FindingSeverityCounts := [("CRITICAL", 1), ("HIGH", 2)],
        Findings := [sampleFinding "CVE-2019-5189" "HIGH", sampleFinding "cve-2019-5200" "LOW"],
        ImageScanCompletedAt := some 2, VulnerabilitySourceUpdatedAt := none },
    NextToken := none }

/-- A backend serving the two sample pages. -/
def sampleBackend : ScanBackend := fun request =>
  match request.NextToken with
  | none => .ok samplePage1
  | some t => if t = "t2" then .ok samplePage2 else .error "InvalidParameterException"

/-- A backend serving the first sample page and failing the second request. -/
def failingBackend : ScanBackend := fun request =>
  match request.NextToken with
  | none => .ok samplePage1
  | some _ => .error "ServerException"

/-- The image the sample scan is about. -/
def sampleImage : RegistryInfo :=
  { RegistryID := "123456789012", Region := "us-west-2", Name := "test-repo", Tag := "sha256:hash" }

/-! ## `report`: ordering of severities -/

/-- Modelled from the spec: the record `finding.SeverityCount` (its package is
not among the sources): the number of included and of ignored findings of one
severity. -/
structure SeverityCount where
  Included : Int
  Ignored : Int
  deriving DecidableEq, Repr

/-- `maps.Keys(m)`: the keys of a Go map in its iteration order. A map is kept
as its list of entries, listed in the order the iteration visits them. -/
def mapsKeys {β : Type} (m : List (String × β)) : List String :=
  m.map Prod.fst

/-- `func sortSeverities(severityCounts map[types.FindingSeverity]finding.SeverityCount)
[]types.FindingSeverity`. `otherPhases` is the part of the library's sort that
is not embedded. -/
def sortSeverities (otherPhases : (String → String → Int) → List String → List String)
    (severityCounts : List (String × SeverityCount)) : List String :=
  let severities := mapsKeys severityCounts
  slicesSortFunc otherPhases compareSeverities severities

/-- The order of severities in the words of the specification: lower rank
first, and within one rank alphabetically. -/
def severityBefore (a b : String) : Prop :=
  rankSeverity a < rankSeverity b ∨ (rankSeverity a = rankSeverity b ∧ a < b)

/-- The six severities the rank table knows. -/
def recognizedSeverities : List String :=
  ["CRITICAL", "HIGH", "MEDIUM", "LOW", "INFORMATIONAL", "UNDEFINED"]

/-! ## `GetLabelDigest` -/

/-- The SDK request `ecr.DescribeImagesInput`, with the one image identifier
`GetLabelDigest` sends. -/
structure DescribeImagesInput where
  RegistryId : String
  RepositoryName : String
  ImageTag : String
  deriving DecidableEq, Repr

/-- The SDK record `types.ImageDetail`. -/
structure ImageDetail where
  ImageDigest : String
  ImageTags : List String
  deriving DecidableEq, Repr

/-- The SDK response `ecr.DescribeImagesOutput`. -/
structure DescribeImagesOutput where
  ImageDetails : List ImageDetail
  deriving DecidableEq, Repr

/-- The backend operation `Client.DescribeImages`. -/
abbrev ImagesBackend := DescribeImagesInput → Except GoError DescribeImagesOutput

/-- `func (r *RegistryScan) GetLabelDigest(ctx, imageInfo) (RegistryInfo, error)`. -/
def GetLabelDigest (client : ImagesBackend) (imageInfo : RegistryInfo) : RegistryInfo × Option GoError :=
  match client { RegistryId := imageInfo.RegistryID, RepositoryName := imageInfo.Name,
                 ImageTag := imageInfo.Tag } with
  | .error err => (RegistryInfo.zero, some err)
  | .ok out =>
    match out.ImageDetails with
    | [] => (RegistryInfo.zero, some ("no image found for image " ++ imageInfo.String))
    | first :: _ =>
      let digestInfo := imageInfo
      ({ digestInfo with Tag := first.ImageDigest }, none)

/-- An image backend that knows one tagged image of the sample repository. -/
def sampleImages : ImagesBackend := fun request =>
  if request.ImageTag = "latest" then
    .ok { ImageDetails := [{ ImageDigest := "sha256:hash", ImageTags := ["latest"] },
                           { ImageDigest := "sha256:other", ImageTags := [] }] }
  else .ok { ImageDetails := [] }

/-! ## `main`: `runCommand` -/

/-- `type Config struct` of `main.go`; the thresholds are `int32`. -/
structure Config where
  Repository : String
  ImageLabel : String
  CriticalSeverityThreshold : Int
  HighSeverityThreshold : Int
  IgnoredVulnerabilities : List String
  deriving DecidableEq, Repr

/-- Modelled from the spec: the errors `runCommand` returns. The package
`runtimeerrors` is not among the sources; an error wrapped by
`runtimeerrors.NonFatal(message, err)` is advisory, any other error is
fatal to the build. -/
inductive CommandError where
  /-- an error returned as it is: fatal -/
  | fatal (err : GoError)
  /-- `runtimeerrors.NonFatal(message, err)` -/
  | nonFatal (message : String) (err : GoError)
  deriving DecidableEq, Repr

/-- The value `report.AnnotationContext` that `runCommand` builds. -/
structure AnnotationContext where
  Image : RegistryInfo
  ImageLabel : String
  ScanFindings : ImageScanFindings
  CriticalSeverityThreshold : Int
  HighSeverityThreshold : Int
  deriving DecidableEq, Repr

/-- What the steps of `runCommand` outside the program answer: loading the AWS
configuration for a region, the two backend operations, the scan-completion
waiter, rendering the report template, and the build agent's calls. `fuel` is
the step budget of the page loop. -/
structure CommandEnv where
  loadDefaultConfig : String → Option GoError
  images : ImagesBackend
  waitForScanFindings : RegistryInfo → Option GoError
  scans : ScanBackend
  fuel : Nat
  render : AnnotationContext → Except GoError String
  annotate : String → String → String → Option GoError
  writeFile : String → String → Option GoError
  artifactUpload : String → Option GoError

/-- How a run of `runCommand` ends. -/
inductive CommandResult where
  /-- the function returned this error (`none`: `nil`) -/
  | returned (err : Option CommandError)
  /-- the result pointer of `GetScanFindings` was `nil` beside a `nil` error -/
  | nilDereference
  /-- the page loop used up its budget -/
  | unfinished
  deriving DecidableEq, Repr

/-- `registry.NewRegistryScan(config)`: the error it returns, always `nil`. -/
def NewRegistryScan : Option GoError := none

/-- Indexing the Go map `map[string]int32`: the value of the key, or zero. -/
def mapIndex (m : List (String × Int)) (key : String) : Int :=
  match m.lookup key with
  | some v => v
  | none => 0

/-- `strings.TrimPrefix(s, "sha256:")`. -/
def trimSha256 (s : String) : String :=
  if s.data.take 7 = "sha256:".data then String.mk (s.data.drop 7) else s

/-- The value `overThreshold` of `runCommand`. -/
def overThreshold (findings : ImageScanFindings) (pluginConfig : Config) : Bool :=
  let criticalFindings := mapIndex findings.FindingSeverityCounts "CRITICAL"
  let highFindings := mapIndex findings.FindingSeverityCounts "HIGH"
  decide (criticalFindings > pluginConfig.CriticalSeverityThreshold) ||
    decide (highFindings > pluginConfig.HighSeverityThreshold)

/-- The style `runCommand` gives the report on the build page. -/
def reportStyle (findings : ImageScanFindings) (pluginConfig : Config) : String :=
  let criticalFindings := mapIndex findings.FindingSeverityCounts "CRITICAL"
  let highFindings := mapIndex findings.FindingSeverityCounts "HIGH"
  if overThreshold findings pluginConfig then "error"
  else if decide (criticalFindings > 0) || decide (highFindings > 0) then "warning"
  else "info"

/-- `func runCommand(ctx, pluginConfig, agent) error`; the log calls are left
out. -/
def runCommand (env : CommandEnv) (pluginConfig : Config) : CommandResult :=
  match RegistryInfoFromURL pluginConfig.Repository with
  | (_, some err) => .returned (some (.fatal err))
  | (imageID, none) =>
    match env.loadDefaultConfig imageID.Region with
    | some err => .returned (some (.nonFatal "could not configure AWS access" err))
    | none =>
      match NewRegistryScan with
      | some err => .returned (some (.nonFatal "could not set up ECR access" err))
      | none =>
        match GetLabelDigest env.images imageID with
        | (_, some err) => .returned (some (.nonFatal "could not find digest for image" err))
        | (imageDigest, none) =>
          match env.waitForScanFindings imageDigest with
          | some err => .returned (some (.nonFatal "could not retrieve scan results" err))
          | none =>
            match GetScanFindings env.scans env.fuel imageDigest pluginConfig.IgnoredVulnerabilities with
            | none => .unfinished
            | some (_, some err) => .returned (some (.nonFatal "could not retrieve scan results" err))
            | some (none, none) => .nilDereference
            | some (some findings, none) =>
              let over := overThreshold findings.ImageScanFindings pluginConfig
              match env.render
                  { Image := imageID, ImageLabel := pluginConfig.ImageLabel,
                    ScanFindings := findings.ImageScanFindings,
                    CriticalSeverityThreshold := pluginConfig.CriticalSeverityThreshold,
                    HighSeverityThreshold := pluginConfig.HighSeverityThreshold } with
              | .error err => .returned (some (.nonFatal "could not render report" err))
              | .ok rendered =>
                match env.annotate rendered (reportStyle findings.ImageScanFindings pluginConfig)
                    ("scan_results_" ++ imageDigest.Tag) with
                | some err => .returned (some (.nonFatal "could not annotate build" err))
                | none =>
                  match env.writeFile ("result." ++ trimSha256 imageDigest.Tag ++ ".html") rendered with
                  | some err => .returned (some (.nonFatal "could not write report artifact" err))
                  | none =>
                    match env.artifactUpload "result*.html" with
                    | some err => .returned (some (.nonFatal "could not upload report artifact" err))
                    | none =>
                      if over then .returned (some (.fatal "vulnerability threshold exceeded"))
                      else .returned none

/-- Every step outside the program succeeds, whatever it is asked. -/
def StepsSucceed (env : CommandEnv) : Prop :=
  (∀ region, env.loadDefaultConfig region = none) ∧
  (∀ digestInfo, env.waitForScanFindings digestInfo = none) ∧
  (∀ ctx, ∃ rendered, env.render ctx = .ok rendered) ∧
  (∀ body style context, env.annotate body style context = none) ∧
  (∀ name body, env.writeFile name body = none) ∧
  (∀ glob, env.artifactUpload glob = none)

/-- An environment in which every step succeeds, with the sample image and
the sample scan (counts of the last page: CRITICAL 1, HIGH 2). -/
def sampleEnv : CommandEnv :=
  { loadDefaultConfig := fun _ => none,
    images := sampleImages,
    waitForScanFindings := fun _ => none,
    scans := sampleBackend,
    fuel := 10,
    render := fun _ => .ok "<h3>report</h3>",
    annotate := fun _ _ _ => none,
    writeFile := fun _ _ => none,
    artifactUpload := fun _ => none }

/-- A plugin configuration for the sample image with the given thresholds and
ignore list. -/
def sampleConfig (maxCriticals maxHighs : Int) (ignore : List String) : Config :=
  { Repository := "123456789012.dkr.ecr.us-west-2.amazonaws.com/test-repo:latest",
    ImageLabel := "", CriticalSeverityThreshold := maxCriticals,
    HighSeverityThreshold := maxHighs, IgnoredVulnerabilities := ignore }

/-! ## `finding`: summarizing a scan -/

/-- Modelled from the spec: the record `finding.Summary` (its package is not
among the sources): the counts per severity, the included findings and the
ignored findings. -/
structure Summary where
  Counts : List (String × SeverityCount)
  Details : List Detail
  Ignored : List Detail
  deriving DecidableEq, Repr

/-- Modelled from the spec: the `Detail` of a basic finding, which is missing
from the sources: identity, description, URI and severity are the finding's;
the specification does not say where the package and score fields are read
from, so they are left empty, as in the expectations of the repository's
test. -/
def findingToDetail (finding : ImageScanFinding) : Detail :=
  { Name := finding.Name, Description := finding.Description, URI := finding.Uri,
    Severity := finding.Severity, PackageName := "", PackageVersion := "",
    CVSS2 := { Score := none, Vector := "" }, CVSS3 := { Score := none, Vector := "" },
    Ignore := none }

/-- Modelled from the spec: the test of a finding's identity against the ignore
rules, which is missing from the sources: exact comparison with each rule's
identity, the first rule that matches being the matched one. -/
def matchIgnore (ignoreRules : List Ignore) (name : String) : Option Ignore :=
  ignoreRules.find? (fun rule => rule.ID == name)

/-- Modelled from the spec: incrementing one counter of a severity in the
counts map, which is missing from the sources; a severity not yet in the map
gets an entry. -/
def bumpCount (counts : List (String × SeverityCount)) (severity : String)
    (bump : SeverityCount → SeverityCount) : List (String × SeverityCount) :=
  match counts with
  | [] => [(severity, bump { Included := 0, Ignored := 0 })]
  | (key, value) :: others =>
    if key = severity then (key, bump value) :: others
    else (key, value) :: bumpCount others severity bump

/-- Modelled from the spec: the step `finding.Summarize` takes for one finding,
which is missing from the sources: on a match with an ignore rule append to
`Ignored` with the rule attached and increment the severity's ignored counter,
otherwise append to `Details` and increment its included counter. -/
def summarizeStep (ignoreRules : List Ignore) (summary : Summary) (finding : ImageScanFinding) :
    Summary :=
  let detail := findingToDetail finding
  match matchIgnore ignoreRules detail.Name with
  | some rule =>
    { summary with
      Ignored := summary.Ignored ++ [{ detail with Ignore := some rule }],
      Counts := bumpCount summary.Counts detail.Severity
        (fun c => { c with Ignored := c.Ignored + 1 }) }
  | none =>
    { summary with
      Details := summary.Details ++ [detail],
      Counts := bumpCount summary.Counts detail.Severity
        (fun c => { c with Included := c.Included + 1 }) }

/-- Modelled from the spec: `finding.Summarize(findings, ignoreRules)`, which
is missing from the sources (only its test is there): a single left-to-right
pass over the findings, starting from counts that hold CRITICAL and HIGH at
zero and from empty lists. -/
def Summarize (findings : ImageScanFindings) (ignoreRules : List Ignore) : Summary :=
  findings.Findings.foldl (summarizeStep ignoreRules)
    { Counts := [("CRITICAL", { Included := 0, Ignored := 0 }),
                 ("HIGH", { Included := 0, Ignored := 0 })],
      Details := [], Ignored := [] }

/-- The findings of the repository's summary test. -/
def summaryTestFindings : ImageScanFindings :=
  { ImageScanFindings.zero with
    Findings := [sampleFinding "CVE-2019-5188" "HIGH", sampleFinding "CVE-2019-5200" "CRITICAL",
                 sampleFinding "CVE-2019-5189" "HIGH"] }

/-- The ignore rules of the repository's summary test. -/
def summaryTestIgnores : List Ignore :=
  [{ ID := "CVE-2019-5189", Until := none }, { ID := "CVE-2019-6000", Until := none }]

/-! ## Sample findings for the report -/

/-- A finding of severity HIGH with the given name and package and no score. -/
def sampleDetail (name package : String) : Detail :=
  { Name := name, Description := "", URI := "", Severity := "HIGH", PackageName := package,
    PackageVersion := "", CVSS2 := { Score := none, Vector := "" },
    CVSS3 := { Score := none, Vector := "" }, Ignore := none }

/-- The three `CVE-g` findings of the repository's report test, which differ in
the package only, and one finding that sorts before them. -/
def tiedDetails : List Detail :=
  [{ Name := "CVE-g", Description := "", URI := "", Severity := "HIGH", PackageName := "g-3",
     PackageVersion := "", CVSS2 := ⟨some 8, ""⟩, CVSS3 := ⟨none, ""⟩, Ignore := none },
   { Name := "CVE-h", Description := "", URI := "", Severity := "HIGH", PackageName := "",
     PackageVersion := "", CVSS2 := ⟨none, ""⟩, CVSS3 := ⟨some 9, ""⟩, Ignore := none },
   { Name := "CVE-g", Description := "", URI := "", Severity := "HIGH", PackageName := "g-1",
     PackageVersion := "", CVSS2 := ⟨some 8, ""⟩, CVSS3 := ⟨none, ""⟩, Ignore := none },
   { Name := "CVE-g", Description := "", URI := "", Severity := "HIGH", PackageName := "g-2",
     PackageVersion := "", CVSS2 := ⟨some 8, ""⟩, CVSS3 := ⟨none, ""⟩, Ignore := none }]

/-- Fourteen findings, more than the insertion sort of the library takes, many
of which compare as equal and differ in the package only. -/
def sampleDetails : List Detail :=
  [sampleDetail "CVE-2" "p01", sampleDetail "CVE-2" "p02", sampleDetail "CVE-2" "p03",
   sampleDetail "CVE-3" "p04", sampleDetail "CVE-2" "p05", sampleDetail "CVE-2" "p06",
   sampleDetail "CVE-1" "p07", sampleDetail "CVE-2" "p08", sampleDetail "CVE-2" "p09",
   sampleDetail "CVE-2" "p10", sampleDetail "CVE-2" "p11", sampleDetail "CVE-2" "p12",
   sampleDetail "CVE-2" "p13", sampleDetail "CVE-2" "p14"]

/-- Fourteen severities, six recognized and eight not, in no order. -/
def sampleSeverityCounts : List (String × SeverityCount) :=
  [("LOW", ⟨1, 0⟩), ("ZETA", ⟨1, 0⟩), ("HIGH", ⟨2, 1⟩), ("ALPHA", ⟨1, 0⟩),
   ("UNDEFINED", ⟨1, 0⟩), ("BETA", ⟨1, 0⟩), ("CRITICAL", ⟨3, 0⟩), ("GAMMA", ⟨1, 0⟩),
   ("MEDIUM", ⟨1, 0⟩), ("DELTA", ⟨1, 0⟩), ("INFORMATIONAL", ⟨1, 0⟩), ("EPSILON", ⟨1, 0⟩),
   ("ETA", ⟨1, 0⟩), ("THETA", ⟨1, 0⟩)]

/-! # Properties -/

/-! ## Shared lemmas: the page loop and the filters -/

theorem slicesContains_iff (ignoreList : List String) (name : String) :
    slicesContains ignoreList name = true ↔ name ∈ ignoreList := by
  unfold slicesContains
  simp only [List.any_eq_true, beq_iff_eq]
  constructor
  · rintro ⟨x, hx, rfl⟩; exact hx
  · intro h; exact ⟨name, h, rfl⟩

theorem foldl_keep_eq_filter {α : Type} (keep : α → Bool) (xs acc : List α) :
    xs.foldl (fun filtered x => if keep x then filtered ++ [x] else filtered) acc
      = acc ++ xs.filter keep := by
  induction xs generalizing acc with
  | nil => simp
  | cons x xs ih =>
    simp only [List.foldl_cons, ih, List.filter_cons]
    by_cases h : keep x = true <;> simp [h]

theorem filterFindings_eq (ignoreList : List String) (findings : List ImageScanFinding) :
    filterFindings ignoreList findings
      = findings.filter (fun finding => decide (finding.Name ∉ ignoreList)) := by
  unfold filterFindings
  rw [foldl_keep_eq_filter (fun finding : ImageScanFinding => !slicesContains ignoreList finding.Name)]
  simp only [List.nil_append]
  apply List.filter_congr
  intro x _
  by_cases h : x.Name ∈ ignoreList
  · simp [h, (slicesContains_iff ignoreList x.Name).mpr h]
  · have h2 : slicesContains ignoreList x.Name = false := by
      cases hc : slicesContains ignoreList x.Name
      · rfl
      · exact absurd ((slicesContains_iff _ _).mp hc) h
    simp [h, h2]

theorem filterEnhancedFindings_eq (ignoreList : List String) (findings : List EnhancedImageScanFinding) :
    filterEnhancedFindings ignoreList findings
      = findings.filter (fun finding => decide (finding.Title ∉ ignoreList)) := by
  unfold filterEnhancedFindings
  rw [foldl_keep_eq_filter (fun finding : EnhancedImageScanFinding => !slicesContains ignoreList finding.Title)]
  simp only [List.nil_append]
  apply List.filter_congr
  intro x _
  by_cases h : x.Title ∈ ignoreList
  · simp [h, (slicesContains_iff ignoreList x.Title).mpr h]
  · have h2 : slicesContains ignoreList x.Title = false := by
      cases hc : slicesContains ignoreList x.Title
      · rfl
      · exact absurd ((slicesContains_iff _ _).mp hc) h
    simp [h, h2]

theorem hasMorePages_after (params : DescribeImageScanFindingsInput)
    (page : DescribeImageScanFindingsOutput) :
    HasMorePages { params := params, firstPage := false, nextToken := page.NextToken }
      = hasNextToken page := by
  simp [HasMorePages, hasNextToken]

theorem pageLoop_done (client : ScanBackend) (fuel : Nat) (pg : Paginator) (st : PageLoopState)
    (h : HasMorePages pg = false) : pageLoop client fuel pg st = some (.ok st) := by
  cases fuel <;> simp [pageLoop, h]

/-- The page loop on a backend that serves `pages`: with enough budget it ends
normally, having appended every page's findings and kept the last page's
record. -/
theorem pageLoop_fetches (client : ScanBackend) (digestInfo : RegistryInfo)
    (token : Option String) (pages : List DescribeImageScanFindingsOutput)
    (h : FetchesPages client digestInfo token pages) :
    ∀ (fuel : Nat) (firstPage : Bool) (st : PageLoopState), pages.length ≤ fuel →
      HasMorePages { params := scanRequest digestInfo none, firstPage := firstPage, nextToken := token } = true →
      ∃ lastPage, pages.getLast? = some lastPage ∧
        pageLoop client fuel
            { params := scanRequest digestInfo none, firstPage := firstPage, nextToken := token } st
          = some (.ok { findings := st.findings ++ allFindings pages,
                        enhancedFindings := st.enhancedFindings ++ allEnhancedFindings pages,
                        imageScanFindings := lastPage.ImageScanFindings }) := by
  induction h with
  | last token page hreq hlast =>
    intro fuel firstPage st hfuel hmore
    refine ⟨page, rfl, ?_⟩
    obtain ⟨fuel, rfl⟩ : ∃ n, fuel = n + 1 := ⟨fuel - 1, by simp at hfuel; omega⟩
    have hreq2 : client { scanRequest digestInfo none with NextToken := token } = .ok page := hreq
    rw [pageLoop]
    simp only [hmore, if_true, NextPage, hreq2, hasMorePages_after, hlast]
    rw [pageLoop_done _ _ _ _ (by rw [hasMorePages_after]; exact hlast)]
    simp [allFindings, allEnhancedFindings]
  | next token page pages hreq hnext _ ih =>
    intro fuel firstPage st hfuel hmore
    obtain ⟨fuel, rfl⟩ : ∃ n, fuel = n + 1 := ⟨fuel - 1, by simp at hfuel; omega⟩
    have hreq2 : client { scanRequest digestInfo none with NextToken := token } = .ok page := hreq
    have hfuel2 : pages.length ≤ fuel := by simp at hfuel; omega
    obtain ⟨lastPage, hl, hrun⟩ := ih fuel false
      { findings := st.findings ++ page.ImageScanFindings.Findings,
        enhancedFindings := st.enhancedFindings ++ page.ImageScanFindings.EnhancedFindings,
        imageScanFindings := st.imageScanFindings } hfuel2
      (by rw [hasMorePages_after]; exact hnext)
    refine ⟨lastPage, ?_, ?_⟩
    · cases pages with
      | nil => simp at hl
      | cons q qs => simpa [List.getLast?_cons_cons] using hl
    · rw [pageLoop]
      simp only [hmore, if_true, NextPage, hreq2, hasMorePages_after, hnext]
      simpa [allFindings, allEnhancedFindings, List.append_assoc] using hrun

/-- The page loop on a backend that fails after `n` pages: with enough budget
it ends with that error. -/
theorem pageLoop_fails (client : ScanBackend) (digestInfo : RegistryInfo)
    (token : Option String) (n : Nat) (err : GoError)
    (h : FetchFails client digestInfo token n err) :
    ∀ (fuel : Nat) (firstPage : Bool) (st : PageLoopState), n + 1 ≤ fuel →
      HasMorePages { params := scanRequest digestInfo none, firstPage := firstPage, nextToken := token } = true →
      pageLoop client fuel
          { params := scanRequest digestInfo none, firstPage := firstPage, nextToken := token } st
        = some (.error err) := by
  induction h with
  | here token err hreq =>
    intro fuel firstPage st hfuel hmore
    obtain ⟨fuel, rfl⟩ : ∃ m, fuel = m + 1 := ⟨fuel - 1, by omega⟩
    have hreq2 : client { scanRequest digestInfo none with NextToken := token } = .error err := hreq
    rw [pageLoop]
    simp only [hmore, if_true, NextPage, hreq2]
  | later token page n err hreq hnext _ ih =>
    intro fuel firstPage st hfuel hmore
    obtain ⟨fuel, rfl⟩ : ∃ m, fuel = m + 1 := ⟨fuel - 1, by omega⟩
    have hreq2 : client { scanRequest digestInfo none with NextToken := token } = .ok page := hreq
    rw [pageLoop]
    simp only [hmore, if_true, NextPage, hreq2, hasMorePages_after, hnext]
    exact ih fuel false _ (by omega) (by rw [hasMorePages_after]; exact hnext)

/-- The result of `GetScanFindings` on a backend that serves `pages`. -/
theorem GetScanFindings_of_fetches (client : ScanBackend) (digestInfo : RegistryInfo)
    (ignoreList : List String) (pages : List DescribeImageScanFindingsOutput) (fuel : Nat)
    (hfetch : FetchesPages client digestInfo none pages) (hfuel : pages.length ≤ fuel) :
    ∃ lastPage, pages.getLast? = some lastPage ∧
      GetScanFindings client fuel digestInfo ignoreList
        = some (some { ImageScanFindings :=
                        { lastPage.ImageScanFindings with
                          Findings := filterFindings ignoreList (allFindings pages),
                          EnhancedFindings := filterEnhancedFindings ignoreList (allEnhancedFindings pages) } },
                none) := by
  obtain ⟨lastPage, hl, hrun⟩ := pageLoop_fetches client digestInfo none pages hfetch fuel true
    { findings := [], enhancedFindings := [], imageScanFindings := ImageScanFindings.zero } hfuel
    (by simp [HasMorePages])
  refine ⟨lastPage, hl, ?_⟩
  have hpg : NewDescribeImageScanFindingsPaginator
      { RegistryId := digestInfo.RegistryID, RepositoryName := digestInfo.Name,
        ImageDigest := digestInfo.Tag, NextToken := none }
      = { params := scanRequest digestInfo none, firstPage := true, nextToken := none } := rfl
  unfold GetScanFindings
  simp only [hpg, hrun, List.nil_append]

/-! ## Paginated retrieval with the ignore list -/

/-- C1: on a backend that serves the page sequence `pages`, `GetScanFindings`
(given a budget of at least one step per page) returns a result and no error;
its `Findings` are the findings of all pages in page order without exactly
those whose `Name` is an element of `ignoreList`, and its `EnhancedFindings`
are the enhanced findings of all pages in page order without exactly those
whose `Title` is an element of `ignoreList`. -/
theorem GetScanFindings_filters_by_exact_identity (client : ScanBackend) (digestInfo : RegistryInfo)
    (ignoreList : List String) (pages : List DescribeImageScanFindingsOutput) (fuel : Nat)
    (hfetch : FetchesPages client digestInfo none pages) (hfuel : pages.length ≤ fuel) :
    ∃ result, GetScanFindings client fuel digestInfo ignoreList = some (some result, none) ∧
      result.ImageScanFindings.Findings
        = (allFindings pages).filter (fun finding => decide (finding.Name ∉ ignoreList)) ∧
      result.ImageScanFindings.EnhancedFindings
        = (allEnhancedFindings pages).filter (fun finding => decide (finding.Title ∉ ignoreList)) := by
  obtain ⟨lastPage, _, hrun⟩ :=
    GetScanFindings_of_fetches client digestInfo ignoreList pages fuel hfetch hfuel
  exact ⟨_, hrun, filterFindings_eq _ _, filterEnhancedFindings_eq _ _⟩

/-- C1 at the sample scan, with an ignore list holding one exact name, one name
in another letter case and one proper beginning of a name. -/
theorem GetScanFindings_filters_by_exact_identity_witness :
    FetchesPages sampleBackend sampleImage none [samplePage1, samplePage2] ∧
    ∃ result,
      GetScanFindings sampleBackend 2 sampleImage ["CVE-2019-5189", "CVE-2019-5200", "CVE-2019-51"]
        = some (some result, none) ∧
      result.ImageScanFindings.Findings
        = (allFindings [samplePage1, samplePage2]).filter
            (fun finding => decide (finding.Name ∉ ["CVE-2019-5189", "CVE-2019-5200", "CVE-2019-51"])) ∧
      result.ImageScanFindings.EnhancedFindings
        = (allEnhancedFindings [samplePage1, samplePage2]).filter
            (fun finding => decide (finding.Title ∉ ["CVE-2019-5189", "CVE-2019-5200", "CVE-2019-51"])) :=
  ⟨FetchesPages.next none samplePage1 [samplePage2] rfl rfl
      (FetchesPages.last (some "t2") samplePage2 rfl rfl),
    GetScanFindings_filters_by_exact_identity sampleBackend sampleImage
      ["CVE-2019-5189", "CVE-2019-5200", "CVE-2019-51"] [samplePage1, samplePage2] 2
      (FetchesPages.next none samplePage1 [samplePage2] rfl rfl
        (FetchesPages.last (some "t2") samplePage2 rfl rfl)) (by decide)⟩

/-- C2: on a backend that serves the page sequence `pages` (which is never
empty: the first request is always made), the `FindingSeverityCounts` of the
result of `GetScanFindings` are those of the last page. -/
theorem GetScanFindings_counts_of_last_page (client : ScanBackend) (digestInfo : RegistryInfo)
    (ignoreList : List String) (pages : List DescribeImageScanFindingsOutput) (fuel : Nat)
    (hfetch : FetchesPages client digestInfo none pages) (hfuel : pages.length ≤ fuel) :
    ∃ result lastPage,
      GetScanFindings client fuel digestInfo ignoreList = some (some result, none) ∧
      pages.getLast? = some lastPage ∧
      result.ImageScanFindings.FindingSeverityCounts
        = lastPage.ImageScanFindings.FindingSeverityCounts := by
  obtain ⟨lastPage, hl, hrun⟩ :=
    GetScanFindings_of_fetches client digestInfo ignoreList pages fuel hfetch hfuel
  exact ⟨_, lastPage, hrun, hl, rfl⟩

/-- C2 at the sample scan: the counts of the first page are not in the result. -/
theorem GetScanFindings_counts_of_last_page_witness :
    FetchesPages sampleBackend sampleImage none [samplePage1, samplePage2] ∧
    ∃ result lastPage,
      GetScanFindings sampleBackend 5 sampleImage [] = some (some result, none) ∧
      [samplePage1, samplePage2].getLast? = some lastPage ∧
      result.ImageScanFindings.FindingSeverityCounts
        = lastPage.ImageScanFindings.FindingSeverityCounts :=
  ⟨FetchesPages.next none samplePage1 [samplePage2] rfl rfl
      (FetchesPages.last (some "t2") samplePage2 rfl rfl),
    GetScanFindings_counts_of_last_page sampleBackend sampleImage [] [samplePage1, samplePage2] 5
      (FetchesPages.next none samplePage1 [samplePage2] rfl rfl
        (FetchesPages.last (some "t2") samplePage2 rfl rfl)) (by decide)⟩

/-- C3: when the backend fails a request, the first or a later one, after `n`
pages, `GetScanFindings` (given a budget of more than `n` steps) returns the
`nil` result together with that error. -/
theorem GetScanFindings_fetch_error (client : ScanBackend) (digestInfo : RegistryInfo)
    (ignoreList : List String) (n : Nat) (err : GoError) (fuel : Nat)
    (hfail : FetchFails client digestInfo none n err) (hfuel : n + 1 ≤ fuel) :
    GetScanFindings client fuel digestInfo ignoreList = some (none, some err) := by
  have hrun := pageLoop_fails client digestInfo none n err hfail fuel true
    { findings := [], enhancedFindings := [], imageScanFindings := ImageScanFindings.zero } hfuel
    (by simp [HasMorePages])
  have hpg : NewDescribeImageScanFindingsPaginator
      { RegistryId := digestInfo.RegistryID, RepositoryName := digestInfo.Name,
        ImageDigest := digestInfo.Tag, NextToken := none }
      = { params := scanRequest digestInfo none, firstPage := true, nextToken := none } := rfl
  unfold GetScanFindings
  simp only [hpg, hrun]

/-- C3 at a backend that serves one page and fails the second request. -/
theorem GetScanFindings_fetch_error_witness :
    FetchFails failingBackend sampleImage none 1 "ServerException" ∧
    GetScanFindings failingBackend 2 sampleImage ["CVE-2019-5189"]
      = some (none, some "ServerException") :=
  ⟨FetchFails.later none samplePage1 0 "ServerException" rfl rfl
      (FetchFails.here (some "t2") "ServerException" rfl),
    GetScanFindings_fetch_error failingBackend sampleImage ["CVE-2019-5189"] 1 "ServerException" 2
      (FetchFails.later none samplePage1 0 "ServerException" rfl rfl
        (FetchFails.here (some "t2") "ServerException" rfl)) (by decide)⟩

/-- The sample scan evaluated: the exact name is dropped, the name in another
letter case and the names that merely begin with an ignored text are kept, and
the counts are those of the second page. -/
theorem GetScanFindings_sample_value :
    GetScanFindings sampleBackend 2 sampleImage ["CVE-2019-5189", "CVE-2019-5200", "CVE-2019-51"]
      = some (some { ImageScanFindings :=
          { EnhancedFindings := [sampleEnhanced "CVE-2019-5188 - e2fsprogs" "HIGH",
                                 sampleEnhanced "CVE-2019-5189 - e2fsprogs" "HIGH"],
            FindingSeverityCounts := [("CRITICAL", 1), ("HIGH", 2)],
            Findings := [sampleFinding "CVE-2019-5188" "HIGH", sampleFinding "cve-2019-5200" "LOW"],
            ImageScanCompletedAt := some 2, VulnerabilitySourceUpdatedAt := none } }, none) := by
  decide

/-! ## The matcher: soundness -/

theorem take_length_sub_append (xs after : List Char) :
    (xs ++ after).take ((xs ++ after).length - after.length) = xs := by
  simp

theorem starGo_sound (cc : CharClass) (k : Cont) (res : Caps) :
    ∀ (rest : List Char) (pos : Nat) (caps : Caps), starGo cc rest pos caps k = some res →
      ∃ xs after, rest = xs ++ after ∧ (∀ c ∈ xs, cc.test c = true) ∧
        k ⟨pos + xs.length, after⟩ caps = some res := by
  intro rest
  induction rest with
  | nil =>
    intro pos caps h
    exact ⟨[], [], rfl, by simp, by simpa [starGo] using h⟩
  | cons c cs ih =>
    intro pos caps h
    rw [starGo] at h
    by_cases hc : cc.test c = true
    · simp only [hc, if_true] at h
      cases hgo : starGo cc cs (pos + 1) caps k with
      | some r =>
        rw [hgo] at h
        obtain ⟨xs, after, hsplit, hall, hk⟩ := ih (pos + 1) caps (hgo.trans h)
        refine ⟨c :: xs, after, by simp [hsplit], ?_, ?_⟩
        · intro d hd
          rcases List.mem_cons.mp hd with rfl | hd
          · exact hc
          · exact hall d hd
        · simpa [Nat.add_assoc, Nat.add_comm 1] using hk
      | none =>
        rw [hgo] at h
        exact ⟨[], c :: cs, rfl, by simp, by simpa using h⟩
    · simp only [hc] at h
      exact ⟨[], c :: cs, rfl, by simp, by simpa using h⟩

/-- Soundness of the matcher: a successful run has consumed a piece of the text
that the pattern spans, and the continuation succeeded from there. -/
theorem Regex.run_sound (re : Regex) :
    ∀ (pos : Nat) (rest : List Char) (caps : Caps) (k : Cont) (res : Caps),
      re.run ⟨pos, rest⟩ caps k = some res →
      ∃ xs after caps1, rest = xs ++ after ∧ re.Spans pos caps xs after caps1 ∧
        k ⟨pos + xs.length, after⟩ caps1 = some res := by
  induction re with
  | empty =>
    intro pos rest caps k res h
    exact ⟨[], rest, caps, rfl, ⟨rfl, rfl⟩, by simpa [Regex.run] using h⟩
  | one cc =>
    intro pos rest caps k res h
    cases rest with
    | nil => simp [Regex.run] at h
    | cons c cs =>
      by_cases hc : cc.test c = true
      · exact ⟨[c], cs, caps, rfl, ⟨c, rfl, hc, rfl⟩, by simpa [Regex.run, hc] using h⟩
      · simp [Regex.run, hc] at h
  | plus cc =>
    intro pos rest caps k res h
    cases rest with
    | nil => simp [Regex.run] at h
    | cons c cs =>
      by_cases hc : cc.test c = true
      · have h2 : starGo cc cs (pos + 1) caps k = some res := by simpa [Regex.run, hc] using h
        obtain ⟨xs, after, hsplit, hall, hk⟩ := starGo_sound cc k res cs (pos + 1) caps h2
        refine ⟨c :: xs, after, caps, by simp [hsplit], ⟨by simp, ?_, rfl⟩, ?_⟩
        · intro d hd
          rcases List.mem_cons.mp hd with rfl | hd
          · exact hc
          · exact hall d hd
        · simpa [Nat.add_assoc, Nat.add_comm 1] using hk
      · simp [Regex.run, hc] at h
  | cat r s ihr ihs =>
    intro pos rest caps k res h
    rw [Regex.run] at h
    obtain ⟨xs1, after1, capsm, hsplit1, hspan1, hk1⟩ := ihr pos rest caps _ res h
    obtain ⟨xs2, after, caps1, hsplit2, hspan2, hk2⟩ := ihs _ after1 capsm k res hk1
    subst hsplit2
    refine ⟨xs1 ++ xs2, after, caps1, by simp [hsplit1], ⟨xs1, xs2, capsm, rfl, hspan1, hspan2⟩, ?_⟩
    simpa [Nat.add_assoc] using hk2
  | capture i r ih =>
    intro pos rest caps k res h
    rw [Regex.run] at h
    obtain ⟨xs, after, capsm, hsplit, hspan, hk⟩ := ih pos rest caps _ res h
    subst hsplit
    refine ⟨xs, after, _, rfl, ⟨capsm, hspan, rfl⟩, ?_⟩
    simpa using hk
  | optional r ih =>
    intro pos rest caps k res h
    rw [Regex.run] at h
    cases hr : r.run ⟨pos, rest⟩ caps k with
    | some v =>
      rw [hr] at h
      obtain ⟨xs, after, caps1, hsplit, hspan, hk⟩ := ih pos rest caps k res (hr.trans h)
      exact ⟨xs, after, caps1, hsplit, Or.inl hspan, hk⟩
    | none =>
      rw [hr] at h
      exact ⟨[], rest, caps, rfl, Or.inr ⟨rfl, rfl⟩, by simpa using h⟩
  | bol =>
    intro pos rest caps k res h
    by_cases hp : pos = 0
    · exact ⟨[], rest, caps, rfl, ⟨rfl, hp, rfl⟩, by simpa [Regex.run, hp] using h⟩
    · simp [Regex.run, hp] at h
  | eol =>
    intro pos rest caps k res h
    by_cases hp : rest = []
    · exact ⟨[], rest, caps, rfl, ⟨rfl, hp, rfl⟩, by simpa [Regex.run, hp] using h⟩
    · simp [Regex.run, hp] at h

theorem Regex.spans_lits (s : List Char) :
    ∀ (pos : Nat) (caps : Caps) (xs after : List Char) (caps1 : Caps),
      (Regex.lits s).Spans pos caps xs after caps1 → xs = s ∧ caps1 = caps := by
  induction s with
  | nil => intro pos caps xs after caps1 h; exact h
  | cons c cs ih =>
    intro pos caps xs after caps1 h
    obtain ⟨xs1, xs2, capsm, hxs, ⟨d, hd, htest, hcm⟩, hrest⟩ := h
    obtain ⟨h2, hc1⟩ := ih _ _ _ _ _ hrest
    have hdc : d = c := by simpa [CharClass.test] using htest
    subst hdc hcm hd h2
    exact ⟨by simpa using hxs, hc1⟩

/-! ## The locator pattern: what it accepts -/

theorem registryImageExpr_run_off_start (pos : Nat) (rest : List Char) (caps : Caps) (k : Cont) :
    registryImageExpr.run ⟨pos + 1, rest⟩ caps k = none := by
  simp [registryImageExpr, Regex.run]

theorem registryImageExpr_findFrom_off_start (rest : List Char) :
    ∀ pos : Nat, registryImageExpr.findFrom (pos + 1) rest = none := by
  induction rest with
  | nil => intro pos; simp [Regex.findFrom, registryImageExpr_run_off_start]
  | cons c cs ih => intro pos; simp [Regex.findFrom, registryImageExpr_run_off_start, ih]

theorem registryImageExpr_findFrom_eq_run (input : List Char) :
    registryImageExpr.findFrom 0 input
      = registryImageExpr.run ⟨0, input⟩ (fun _ => none) (fun _ caps => some caps) := by
  cases input with
  | nil => simp [Regex.findFrom]
  | cons c cs =>
    rw [Regex.findFrom, registryImageExpr_findFrom_off_start]
    cases registryImageExpr.run ⟨0, c :: cs⟩ (fun _ => none) (fun _ caps => some caps) <;> rfl

/-- Every text the locator pattern matches has the shape of the pattern, and
the groups hold the corresponding pieces. The two characters around
`amazonaws` are only known not to be line feeds. -/
theorem registryImageExpr_shape (input : List Char) (caps : Caps)
    (h : registryImageExpr.findFrom 0 input = some caps) :
    ∃ (rid region name tagPart : List Char) (c1 c2 : Char),
      input = rid ++ (".dkr.ecr.".data ++ (region ++ (c1 :: ("amazonaws".data ++
                (c2 :: ("com/".data ++ (name ++ tagPart))))))) ∧
      caps 0 = some input ∧ caps 1 = some rid ∧ caps 2 = some region ∧ caps 3 = some name ∧
      ((tagPart = [] ∧ caps 4 = none) ∨
        (∃ tag, tag ≠ [] ∧ tagPart = ':' :: tag ∧ caps 4 = some tag)) := by
  rw [registryImageExpr_findFrom_eq_run] at h
  obtain ⟨xs, after, caps1, hsplit, hspan, hk⟩ := Regex.run_sound _ _ _ _ _ _ h
  simp only [Option.some.injEq] at hk
  subst hk
  simp only [registryImageExpr, Regex.Spans] at hspan
  obtain ⟨cm0, ⟨a0, b0, m0, hx0, ⟨ha0, -, hm0⟩,
    a1, b1, m1, hx1, ⟨n1, ⟨-, -, hn1⟩, hm1⟩,
    a2, b2, m2, hx2, hl2,
    a3, b3, m3, hx3, ⟨n3, ⟨-, -, hn3⟩, hm3⟩,
    a4, b4, m4, hx4, ⟨c1, ha4, -, hm4⟩,
    a5, b5, m5, hx5, hl5,
    a6, b6, m6, hx6, ⟨c2, ha6, -, hm6⟩,
    a7, b7, m7, hx7, hl7,
    a8, b8, m8, hx8, ⟨n8, ⟨-, -, hn8⟩, hm8⟩,
    a9, b9, m9, hx9, hopt, hb9, hafter, hm9⟩, hcaps⟩ := hspan
  obtain ⟨ha2, hm2⟩ := Regex.spans_lits ".dkr.ecr.".data 0 m1 a2 [] m2 hl2
  obtain ⟨ha5, hm5⟩ := Regex.spans_lits "amazonaws".data 0 m4 a5 [] m5 hl5
  obtain ⟨ha7, hm7⟩ := Regex.spans_lits "com/".data 0 m6 a7 [] m7 hl7
  subst hafter hb9 ha0 ha2 ha5 ha7 ha4 ha6 hx9 hx8 hx7 hx6 hx5 hx4 hx3 hx2 hx1 hx0
  subst hn1 hn3 hn8 hm0 hm2 hm4 hm5 hm6 hm7
  refine ⟨a1, a3, a8, a9, c1, c2, ?_, ?_, ?_, ?_, ?_, ?_⟩
  · simp [hsplit]
  · rw [hcaps]; simp [hsplit]
  · rcases hopt with ⟨p, q, mo, hpq, ⟨d, hp, -, hmo⟩, n4, ⟨-, -, hn4⟩, hmq⟩ | ⟨-, hmo⟩
    · subst hn4 hmo; rw [hcaps, hm9, hmq, hm8, hm3, hm1]; simp [Function.update]
    · rw [hcaps, hm9, hmo, hm8, hm3, hm1]; simp [Function.update]
  · rcases hopt with ⟨p, q, mo, hpq, ⟨d, hp, -, hmo⟩, n4, ⟨-, -, hn4⟩, hmq⟩ | ⟨-, hmo⟩
    · subst hn4 hmo; rw [hcaps, hm9, hmq, hm8, hm3, hm1]; simp [Function.update]
    · rw [hcaps, hm9, hmo, hm8, hm3, hm1]; simp [Function.update]
  · rcases hopt with ⟨p, q, mo, hpq, ⟨d, hp, -, hmo⟩, n4, ⟨-, -, hn4⟩, hmq⟩ | ⟨-, hmo⟩
    · subst hn4 hmo; rw [hcaps, hm9, hmq, hm8, hm3, hm1]; simp [Function.update]
    · rw [hcaps, hm9, hmo, hm8, hm3, hm1]; simp [Function.update]
  · rcases hopt with ⟨p, q, mo, hpq, ⟨d, hp, htest, hmo⟩, n4, ⟨hq, -, hn4⟩, hmq⟩ | ⟨he, hmo⟩
    · right
      have hd : d = ':' := by simpa [CharClass.test] using htest
      subst hn4 hmo hd hp
      refine ⟨q, hq, by simpa using hpq, ?_⟩
      rw [hcaps, hm9, hmq]; simp [Function.update]
    · left
      refine ⟨he, ?_⟩
      rw [hcaps, hm9, hmo, hm8, hm3, hm1]; simp [Function.update]

/-! ## The matcher: greedy runs -/

theorem starGo_greedy (cc : CharClass) (k : Cont) (res : Caps) (ys : List Char)
    (hstop : ∀ c cs, ys = c :: cs → cc.test c = false) :
    ∀ (xs : List Char) (pos : Nat) (caps : Caps), (∀ c ∈ xs, cc.test c = true) →
      k ⟨pos + xs.length, ys⟩ caps = some res →
      starGo cc (xs ++ ys) pos caps k = some res := by
  intro xs
  induction xs with
  | nil =>
    intro pos caps _ hk
    cases ys with
    | nil => simpa [starGo] using hk
    | cons c cs => simpa [starGo, hstop c cs rfl] using hk
  | cons x xs ih =>
    intro pos caps hall hk
    have hx : cc.test x = true := hall x (by simp)
    have hrest : starGo cc (xs ++ ys) (pos + 1) caps k = some res :=
      ih (pos + 1) caps (fun c hc => hall c (by simp [hc]))
        (by simpa [Nat.add_assoc, Nat.add_comm 1] using hk)
    simp [starGo, hx, hrest]

theorem Regex.run_plus_greedy (cc : CharClass) (k : Cont) (res : Caps) (xs ys : List Char)
    (pos : Nat) (caps : Caps) (hne : xs ≠ []) (hall : ∀ c ∈ xs, cc.test c = true)
    (hstop : ∀ c cs, ys = c :: cs → cc.test c = false)
    (hk : k ⟨pos + xs.length, ys⟩ caps = some res) :
    (Regex.plus cc).run ⟨pos, xs ++ ys⟩ caps k = some res := by
  cases xs with
  | nil => exact absurd rfl hne
  | cons x xs =>
    have hx : cc.test x = true := hall x (by simp)
    have hrest : starGo cc (xs ++ ys) (pos + 1) caps k = some res :=
      starGo_greedy cc k res ys hstop xs (pos + 1) caps (fun c hc => hall c (by simp [hc]))
        (by simpa [Nat.add_assoc, Nat.add_comm 1] using hk)
    simp [Regex.run, hx, hrest]

theorem Regex.run_lits (s : List Char) :
    ∀ (pos : Nat) (rest : List Char) (caps : Caps) (k : Cont),
      (Regex.lits s).run ⟨pos, s ++ rest⟩ caps k = k ⟨pos + s.length, rest⟩ caps := by
  induction s with
  | nil => intro pos rest caps k; simp [Regex.lits, Regex.run]
  | cons c cs ih =>
    intro pos rest caps k
    simp [Regex.lits, Regex.run, CharClass.test, ih, Nat.add_assoc, Nat.add_comm 1]

theorem notChr_all (c : Char) (xs : List Char) (h : c ∉ xs) :
    ∀ x ∈ xs, (CharClass.notChr c).test x = true := by
  intro x hx
  have : x ≠ c := fun e => h (e ▸ hx)
  simp [CharClass.test, this]

theorem anyNotNL_all (xs : List Char) (h : '\n' ∉ xs) :
    ∀ x ∈ xs, CharClass.anyNotNL.test x = true := by
  intro x hx
  have : x ≠ '\n' := fun e => h (e ▸ hx)
  simp [CharClass.test, this]

theorem Regex.run_one_ok (cc : CharClass) (c : Char) (rest : List Char) (pos : Nat) (caps : Caps)
    (k : Cont) (h : cc.test c = true) :
    (Regex.one cc).run ⟨pos, c :: rest⟩ caps k = k ⟨pos + 1, rest⟩ caps := by
  simp [Regex.run, h]

theorem Regex.run_plus_all (cc : CharClass) (k : Cont) (res : Caps) (xs : List Char)
    (pos : Nat) (caps : Caps) (hne : xs ≠ []) (hall : ∀ c ∈ xs, cc.test c = true)
    (hk : k ⟨pos + xs.length, []⟩ caps = some res) :
    (Regex.plus cc).run ⟨pos, xs⟩ caps k = some res := by
  have h := Regex.run_plus_greedy cc k res xs [] pos caps hne hall (by intro c cs h; cases h) hk
  simpa using h

theorem Regex.run_optional_some (r : Regex) (cur : Cursor) (caps : Caps) (k : Cont) (res : Caps)
    (h : r.run cur caps k = some res) : (Regex.optional r).run cur caps k = some res := by
  simp [Regex.run, h]

/-- The locator pattern on a text of the tagged form: the match succeeds and
the groups hold the four pieces. The tag is everything after the first colon
that follows the name. -/
theorem registryImageExpr_tagged (rid region name tag : List Char)
    (hrid : rid ≠ []) (hridDot : '.' ∉ rid) (hregion : region ≠ []) (hregionDot : '.' ∉ region)
    (hname : name ≠ []) (hnameColon : ':' ∉ name) (htag : tag ≠ []) (htagNL : '\n' ∉ tag) :
    ∃ caps, registryImageExpr.findFrom 0
        (rid ++ (".dkr.ecr.".data ++ (region ++ ('.' :: ("amazonaws".data ++
          ('.' :: ("com/".data ++ (name ++ ':' :: tag))))))))
        = some caps ∧
      caps 1 = some rid ∧ caps 2 = some region ∧ caps 3 = some name ∧ caps 4 = some tag := by
  refine ⟨Function.update (Function.update (Function.update (Function.update (Function.update
      (fun _ => none) 1 (some rid)) 2 (some region)) 3 (some name)) 4 (some tag)) 0
      (some (rid ++ (".dkr.ecr.".data ++ (region ++ ('.' :: ("amazonaws".data ++
          ('.' :: ("com/".data ++ (name ++ ':' :: tag))))))))), ?h1, ?h2⟩
  case h1 =>
    rw [registryImageExpr_findFrom_eq_run]
    unfold registryImageExpr
    rw [Regex.run, Regex.run, Regex.run]
    simp only [if_true]
    rw [Regex.run, Regex.run]
    apply Regex.run_plus_greedy _ _ _ rid _ 0 _ hrid (notChr_all _ _ hridDot)
      (by intro c cs h; simp at h; simp [CharClass.test, ← h.1])
    simp only []
    rw [Regex.run, Regex.run_lits]
    rw [Regex.run, Regex.run]
    apply Regex.run_plus_greedy _ _ _ region _ _ _ hregion (notChr_all _ _ hregionDot)
      (by intro c cs h; simp at h; simp [CharClass.test, ← h.1])
    simp only []
    rw [Regex.run, Regex.run_one_ok _ _ _ _ _ _ (by decide)]
    rw [Regex.run, Regex.run_lits]
    rw [Regex.run, Regex.run_one_ok _ _ _ _ _ _ (by decide)]
    rw [Regex.run, Regex.run_lits]
    rw [Regex.run, Regex.run]
    apply Regex.run_plus_greedy _ _ _ name _ _ _ hname (notChr_all _ _ hnameColon)
      (by intro c cs h; simp at h; simp [CharClass.test, ← h.1])
    simp only []
    rw [Regex.run]
    apply Regex.run_optional_some
    rw [Regex.run, Regex.run_one_ok _ _ _ _ _ _ (by decide)]
    rw [Regex.run]
    apply Regex.run_plus_all _ _ _ tag _ _ htag (anyNotNL_all _ htagNL)
    simp only []
    rw [Regex.run]
    simp only [if_true, List.length_nil, Nat.sub_zero, List.take_length, take_length_sub_append]
  case h2 =>
    refine ⟨?_, ?_, ?_, ?_⟩ <;> simp [Function.update]

/-! ## `RegistryInfoFromURL`: from the groups to the record -/

theorem RegistryInfoFromURL_of_match (url : String) (caps : Caps)
    (h : registryImageExpr.findFrom 0 url.data = some caps) :
    RegistryInfoFromURL url
      = ({ RegistryID := groupText (caps 1), Region := groupText (caps 2),
           Name := groupText (caps 3), Tag := groupText (caps 4) }, none) := by
  have hrange : List.range (4 + 1) = [0, 1, 2, 3, 4] := by decide
  unfold RegistryInfoFromURL FindStringSubmatch
  simp only [h, hrange, SubexpNames, List.map, List.zip_cons_cons, List.zip_nil_right,
    List.foldl, assignSubexp, RegistryInfo.zero]
  simp

theorem RegistryInfoFromURL_of_no_match (url : String)
    (h : registryImageExpr.findFrom 0 url.data = none) :
    RegistryInfoFromURL url = (RegistryInfo.zero, some ("invalid registry URL: " ++ url)) := by
  unfold RegistryInfoFromURL FindStringSubmatch
  simp only [h]

theorem string_data_ne_nil (s : String) (h : s ≠ "") : s.data ≠ [] := by
  intro hd
  apply h
  cases s
  simp_all

/-- The locator of the tagged form, parsed: shared by the statements about
tagged locators. -/
theorem RegistryInfoFromURL_tagged_form (registryId region name tag : String)
    (hrid : registryId ≠ "") (hridDot : '.' ∉ registryId.toList)
    (hregion : region ≠ "") (hregionDot : '.' ∉ region.toList)
    (hname : name ≠ "") (hnameColon : ':' ∉ name.toList)
    (htag : tag ≠ "") (htagNL : '\n' ∉ tag.toList) :
    RegistryInfoFromURL
        (registryId ++ ".dkr.ecr." ++ region ++ ".amazonaws.com/" ++ name ++ ":" ++ tag)
      = ({ RegistryID := registryId, Region := region, Name := name, Tag := tag }, none) := by
  obtain ⟨caps, hfind, h1, h2, h3, h4⟩ :=
    registryImageExpr_tagged registryId.data region.data name.data tag.data
      (string_data_ne_nil _ hrid) hridDot (string_data_ne_nil _ hregion) hregionDot
      (string_data_ne_nil _ hname) hnameColon (string_data_ne_nil _ htag) htagNL
  have hdata : (registryId ++ ".dkr.ecr." ++ region ++ ".amazonaws.com/" ++ name ++ ":" ++ tag).data
      = registryId.data ++ (".dkr.ecr.".data ++ (region.data ++ ('.' :: ("amazonaws".data ++
          ('.' :: ("com/".data ++ (name.data ++ ':' :: tag.data))))))) := by
    simp [String.data_append]
  rw [← hdata] at hfind
  rw [RegistryInfoFromURL_of_match _ caps hfind, h1, h2, h3, h4]
  rfl

/-- Every locator `RegistryInfoFromURL` accepts is the parsed registry id,
`.dkr.ecr.`, the region, one character that is not a line feed, `amazonaws`,
one such character again, `com/`, the name and, when the tag is not empty, a
colon and the tag. -/
theorem RegistryInfoFromURL_accepts (url : String) (info : RegistryInfo)
    (h : RegistryInfoFromURL url = (info, none)) :
    ∃ (c1 c2 : Char) (tagPart : List Char),
      url.data = info.RegistryID.data ++ (".dkr.ecr.".data ++ (info.Region.data ++
        (c1 :: ("amazonaws".data ++ (c2 :: ("com/".data ++ (info.Name.data ++ tagPart))))))) ∧
      ((tagPart = [] ∧ info.Tag = "") ∨ (info.Tag ≠ "" ∧ tagPart = ':' :: info.Tag.data)) := by
  cases hfind : registryImageExpr.findFrom 0 url.data with
  | none =>
    rw [RegistryInfoFromURL_of_no_match url hfind] at h
    simp at h
  | some caps =>
    rw [RegistryInfoFromURL_of_match url caps hfind] at h
    obtain ⟨rid, region, name, tagPart, c1, c2, hshape, -, h1, h2, h3, h4⟩ :=
      registryImageExpr_shape url.data caps hfind
    have hinfo := (Prod.mk.inj h).1
    subst hinfo
    refine ⟨c1, c2, tagPart, ?_, ?_⟩
    · simpa [h1, h2, h3, groupText] using hshape
    · rcases h4 with ⟨he, h4⟩ | ⟨tag, hne, he, h4⟩
      · left; exact ⟨he, by simp [h4, groupText]⟩
      · right
        refine ⟨?_, by simp [h4, groupText, he]⟩
        simp only [h4, groupText]
        intro hempty
        apply hne
        have := congrArg String.data hempty
        simpa using this

/-- A locator without a slash is not matched. -/
theorem registryImageExpr_needs_slash (url : String) (h : '/' ∉ url.toList) :
    registryImageExpr.findFrom 0 url.data = none := by
  cases hfind : registryImageExpr.findFrom 0 url.data with
  | none => rfl
  | some caps =>
    obtain ⟨rid, region, name, tagPart, c1, c2, hshape, -⟩ :=
      registryImageExpr_shape url.data caps hfind
    exfalso
    apply h
    show '/' ∈ url.data
    rw [hshape]
    simp

/-! ## Locator parsing -/

/-- C4 as stated fails: the locator without a tag of the repository's own test
is accepted, and `String()` of the parsed record differs from it (it ends in a
colon). -/
theorem String_of_RegistryInfoFromURL_not_inverse :
    ¬ ∀ (url : String) (info : RegistryInfo),
        RegistryInfoFromURL url = (info, none) → info.String = url := by
  intro hall
  have h := hall "123456789012.dkr.ecr.us-west-2.amazonaws.com/test-repo"
    { RegistryID := "123456789012", Region := "us-west-2", Name := "test-repo", Tag := "" }
    (by decide)
  revert h
  decide

/-- C4, amended: for every locator `RegistryInfoFromURL` accepts with a tag
that is not empty, and that begins with the parsed registry id and region
joined and followed by the literal texts `.dkr.ecr.` and `.amazonaws.com/`,
`String()` of the parsed record is the locator. -/
theorem String_of_RegistryInfoFromURL (url : String) (info : RegistryInfo) (rest : String)
    (hacc : RegistryInfoFromURL url = (info, none)) (htag : info.Tag ≠ "")
    (hhost : url = info.RegistryID ++ ".dkr.ecr." ++ info.Region ++ ".amazonaws.com/" ++ rest) :
    info.String = url := by
  obtain ⟨c1, c2, tagPart, hshape, htagPart⟩ := RegistryInfoFromURL_accepts url info hacc
  rcases htagPart with ⟨-, he⟩ | ⟨-, hpart⟩
  · exact absurd he htag
  · subst hpart
    have hdata := congrArg String.data hhost
    rw [hshape] at hdata
    simp only [String.data_append, List.append_assoc, List.append_cancel_left_eq] at hdata
    have hc : c1 = '.' ∧ c2 = '.' := by
      simp at hdata
      exact ⟨hdata.1, hdata.2.1⟩
    obtain ⟨rfl, rfl⟩ := hc
    apply String.ext
    rw [hshape]
    simp [RegistryInfo.String, String.data_append]

/-- C4, amended, at the tagged locator of the repository's test. -/
theorem String_of_RegistryInfoFromURL_witness :
    RegistryInfoFromURL "123456789012.dkr.ecr.us-west-2.amazonaws.com/test-repo:latest"
      = ({ RegistryID := "123456789012", Region := "us-west-2", Name := "test-repo",
           Tag := "latest" }, none) ∧
    RegistryInfo.String { RegistryID := "123456789012", Region := "us-west-2", Name := "test-repo",
                          Tag := "latest" }
      = "123456789012.dkr.ecr.us-west-2.amazonaws.com/test-repo:latest" :=
  ⟨by decide,
    String_of_RegistryInfoFromURL "123456789012.dkr.ecr.us-west-2.amazonaws.com/test-repo:latest"
      { RegistryID := "123456789012", Region := "us-west-2", Name := "test-repo", Tag := "latest" }
      "test-repo:latest" (by decide) (by decide) (by decide)⟩

/-- C5: for a registry id and a region that are not empty and hold no dot, a
name that is not empty and holds no colon, and a tag that is not empty and
holds no line feed, `RegistryInfoFromURL` on
`<registryId>.dkr.ecr.<region>.amazonaws.com/<name>:<tag>` returns no error and
the record of exactly these four pieces; in other words parsing `String()` of
such a record gives the record back. -/
theorem RegistryInfoFromURL_of_String (registryId region name tag : String)
    (hrid : registryId ≠ "") (hridDot : '.' ∉ registryId.toList)
    (hregion : region ≠ "") (hregionDot : '.' ∉ region.toList)
    (hname : name ≠ "") (hnameColon : ':' ∉ name.toList)
    (htag : tag ≠ "") (htagNL : '\n' ∉ tag.toList) :
    RegistryInfoFromURL
        (registryId ++ ".dkr.ecr." ++ region ++ ".amazonaws.com/" ++ name ++ ":" ++ tag)
      = ({ RegistryID := registryId, Region := region, Name := name, Tag := tag }, none) ∧
    RegistryInfoFromURL
        (RegistryInfo.String { RegistryID := registryId, Region := region, Name := name, Tag := tag })
      = ({ RegistryID := registryId, Region := region, Name := name, Tag := tag }, none) :=
  ⟨RegistryInfoFromURL_tagged_form registryId region name tag hrid hridDot hregion hregionDot
      hname hnameColon htag htagNL,
    RegistryInfoFromURL_tagged_form registryId region name tag hrid hridDot hregion hregionDot
      hname hnameColon htag htagNL⟩

/-- C5 at the tagged locator of the repository's test. -/
theorem RegistryInfoFromURL_of_String_witness :
    RegistryInfoFromURL
        ("123456789012" ++ ".dkr.ecr." ++ "us-west-2" ++ ".amazonaws.com/" ++ "test-repo" ++ ":" ++ "latest")
      = ({ RegistryID := "123456789012", Region := "us-west-2", Name := "test-repo",
           Tag := "latest" }, none) ∧
    RegistryInfoFromURL
        (RegistryInfo.String { RegistryID := "123456789012", Region := "us-west-2",
                               Name := "test-repo", Tag := "latest" })
      = ({ RegistryID := "123456789012", Region := "us-west-2", Name := "test-repo",
           Tag := "latest" }, none) :=
  RegistryInfoFromURL_of_String "123456789012" "us-west-2" "test-repo" "latest"
    (by decide) (by decide) (by decide) (by decide) (by decide) (by decide) (by decide) (by decide)

/-- C6 fails on the code: a locator whose host does not end in the literal text
`.amazonaws.com` (here it ends in `.amazonawsXcom`) is accepted, because the
dots around `amazonaws` in the pattern are unescaped and match any character. -/
theorem RegistryInfoFromURL_accepts_other_host :
    RegistryInfoFromURL "123456789012.dkr.ecr.us-west-2.amazonawsXcom/test-repo:latest"
      = ({ RegistryID := "123456789012", Region := "us-west-2", Name := "test-repo",
           Tag := "latest" }, none) := by
  decide

/-- C7: a locator without a slash is answered with the zero record and an
error whose message is `invalid registry URL: ` followed by the locator, so
contains `invalid registry URL`; and whenever `RegistryInfoFromURL` returns an
error, the record beside it is the zero record. -/
theorem RegistryInfoFromURL_no_repository (url : String) (h : '/' ∉ url.toList) :
    RegistryInfoFromURL url = (RegistryInfo.zero, some ("invalid registry URL: " ++ url)) ∧
    "invalid registry URL".toList <:+: ("invalid registry URL: " ++ url).toList ∧
    ∀ (other : String) (info : RegistryInfo) (err : GoError),
      RegistryInfoFromURL other = (info, some err) → info = RegistryInfo.zero := by
  refine ⟨RegistryInfoFromURL_of_no_match url (registryImageExpr_needs_slash url h), ?_, ?_⟩
  · exact ⟨[], ": ".toList ++ url.toList, by simp [String.toList, String.data_append]⟩
  · intro other info err hother
    cases hfind : registryImageExpr.findFrom 0 other.data with
    | none =>
      rw [RegistryInfoFromURL_of_no_match other hfind] at hother
      exact ((Prod.mk.inj hother).1).symm
    | some caps =>
      rw [RegistryInfoFromURL_of_match other caps hfind] at hother
      simp at hother

/-- C7 at the locator of the repository's test. -/
theorem RegistryInfoFromURL_no_repository_witness :
    RegistryInfoFromURL "123456789012.dkr.ecr.us-west-2.amazonaws.com"
      = (RegistryInfo.zero,
         some ("invalid registry URL: " ++ "123456789012.dkr.ecr.us-west-2.amazonaws.com")) ∧
    "invalid registry URL".toList
      <:+: ("invalid registry URL: " ++ "123456789012.dkr.ecr.us-west-2.amazonaws.com").toList ∧
    ∀ (other : String) (info : RegistryInfo) (err : GoError),
      RegistryInfoFromURL other = (info, some err) → info = RegistryInfo.zero :=
  RegistryInfoFromURL_no_repository "123456789012.dkr.ecr.us-west-2.amazonaws.com" (by decide)

/-- C8 fails on the code: on the locator with a digest and no tag of the
repository's test the name comes out as `test-repo@sha256` and the tag as
`hash`; the pattern knows no `@` and splits at the colon inside the digest. -/
theorem RegistryInfoFromURL_digest_locator :
    RegistryInfoFromURL "123456789012.dkr.ecr.us-west-2.amazonaws.com/test-repo@sha256:hash"
      = ({ RegistryID := "123456789012", Region := "us-west-2", Name := "test-repo@sha256",
           Tag := "hash" }, none) := by
  decide

/-- C9: for a registry id and a region that are not empty and hold no dot, a
name that is not empty and holds no colon, and a tag and a digest that hold no
line feed, `RegistryInfoFromURL` on
`<registryId>.dkr.ecr.<region>.amazonaws.com/<name>:<tag>@<digest>` returns no
error, the name `<name>` and the tag `<tag>@<digest>`: the digest stays in the
tag. -/
theorem RegistryInfoFromURL_tag_absorbs_digest (registryId region name tag digest : String)
    (hrid : registryId ≠ "") (hridDot : '.' ∉ registryId.toList)
    (hregion : region ≠ "") (hregionDot : '.' ∉ region.toList)
    (hname : name ≠ "") (hnameColon : ':' ∉ name.toList)
    (htagNL : '\n' ∉ tag.toList) (hdigestNL : '\n' ∉ digest.toList) :
    RegistryInfoFromURL
        (registryId ++ ".dkr.ecr." ++ region ++ ".amazonaws.com/" ++ name ++ ":" ++ tag ++ "@" ++ digest)
      = ({ RegistryID := registryId, Region := region, Name := name,
           Tag := tag ++ "@" ++ digest }, none) := by
  have hne : tag ++ "@" ++ digest ≠ "" := by
    intro he
    have := congrArg String.data he
    simp [String.data_append] at this
  have hnl : '\n' ∉ (tag ++ "@" ++ digest).toList := by
    simp only [String.toList, String.data_append, List.mem_append, not_or]
    exact ⟨⟨htagNL, by decide⟩, hdigestNL⟩
  have h := RegistryInfoFromURL_tagged_form registryId region name (tag ++ "@" ++ digest)
    hrid hridDot hregion hregionDot hname hnameColon hne hnl
  simpa [String.append_assoc] using h

/-- C9 at the locator with a tag and a digest of the repository's test. -/
theorem RegistryInfoFromURL_tag_absorbs_digest_witness :
    RegistryInfoFromURL
        ("123456789012" ++ ".dkr.ecr." ++ "us-west-2" ++ ".amazonaws.com/" ++ "test-repo" ++ ":" ++
          "tagged" ++ "@" ++ "sha256:hash")
      = ({ RegistryID := "123456789012", Region := "us-west-2", Name := "test-repo",
           Tag := "tagged" ++ "@" ++ "sha256:hash" }, none) :=
  RegistryInfoFromURL_tag_absorbs_digest "123456789012" "us-west-2" "test-repo" "tagged" "sha256:hash"
    (by decide) (by decide) (by decide) (by decide) (by decide) (by decide) (by decide) (by decide)

/-- The locators of the repository's parsing tests, evaluated on the code. -/
theorem RegistryInfoFromURL_test_locators :
    RegistryInfoFromURL "123456789012.dkr.ecr.us-west-2.amazonaws.com/test-repo:latest"
      = ({ RegistryID := "123456789012", Region := "us-west-2", Name := "test-repo",
           Tag := "latest" }, none) ∧
    RegistryInfoFromURL "123456789012.dkr.ecr.us-west-2.amazonaws.com/test-repo:tagged@sha256:hash"
      = ({ RegistryID := "123456789012", Region := "us-west-2", Name := "test-repo",
           Tag := "tagged@sha256:hash" }, none) ∧
    RegistryInfoFromURL "123456789012.dkr.ecr.us-west-2.amazonaws.com/test-repo"
      = ({ RegistryID := "123456789012", Region := "us-west-2", Name := "test-repo",
           Tag := "" }, none) ∧
    RegistryInfo.String { RegistryID := "123456789012", Region := "us-west-2", Name := "test-repo",
                          Tag := "" }
      = "123456789012.dkr.ecr.us-west-2.amazonaws.com/test-repo:" := by
  decide

/-! ## Weak orderings and the insertion sort -/

namespace IsWeakOrderCmp

variable {α : Type} {cmp : α → α → Int}

theorem swap_nonpos (h : IsWeakOrderCmp cmp) (a b : α) : cmp a b ≤ 0 ↔ 0 ≤ cmp b a := by
  have h1 := h.swap_neg b a
  constructor
  · intro hab
    by_contra hneg
    have : 0 < cmp a b := h1.mp (by omega)
    omega
  · intro hba
    by_contra hpos
    have : cmp b a < 0 := h1.mpr (by omega)
    omega

theorem swap_zero (h : IsWeakOrderCmp cmp) (a b : α) : cmp a b = 0 ↔ cmp b a = 0 := by
  have h1 := h.swap_nonpos a b
  have h2 := h.swap_nonpos b a
  constructor <;> intro h0
  · have := h1.mp (by omega); have := h2.mpr (by omega); omega
  · have := h2.mp (by omega); have := h1.mpr (by omega); omega

theorem lt_of_lt_of_le (h : IsWeakOrderCmp cmp) {a b c : α} (hab : cmp a b < 0)
    (hbc : cmp b c ≤ 0) : cmp a c < 0 := by
  have hac := h.le_trans a b c (by omega) hbc
  by_contra hn
  have hca : cmp c a ≤ 0 := (h.swap_nonpos c a).mpr (by omega)
  have hba := h.le_trans b c a hbc hca
  have := (h.swap_neg a b).mp hab
  omega

theorem lt_of_le_of_lt (h : IsWeakOrderCmp cmp) {a b c : α} (hab : cmp a b ≤ 0)
    (hbc : cmp b c < 0) : cmp a c < 0 := by
  have hac := h.le_trans a b c hab (by omega)
  by_contra hn
  have hca : cmp c a ≤ 0 := (h.swap_nonpos c a).mpr (by omega)
  have hcb := h.le_trans c a b hca hab
  have := (h.swap_neg b c).mp hbc
  omega

theorem eq_trans (h : IsWeakOrderCmp cmp) {a b c : α} (hab : cmp a b = 0)
    (hbc : cmp b c = 0) : cmp a c = 0 := by
  have hac := h.le_trans a b c (by omega) (by omega)
  have hba := (h.swap_zero a b).mp hab
  have hcb := (h.swap_zero b c).mp hbc
  have hca := h.le_trans c b a (by omega) (by omega)
  have := (h.swap_nonpos c a).mp hca
  omega

/-- Comparing by an integer key. -/
theorem of_key (f : α → Int) : IsWeakOrderCmp (fun a b => f a - f b) where
  swap_neg := by intro a b; constructor <;> intro h <;> omega
  le_trans := by intro a b c h1 h2; omega

/-- Comparing images under a map. -/
theorem comap {β : Type} (h : IsWeakOrderCmp cmp) (f : β → α) :
    IsWeakOrderCmp (fun a b => cmp (f a) (f b)) where
  swap_neg := fun a b => h.swap_neg (f a) (f b)
  le_trans := fun a b c => h.le_trans (f a) (f b) (f c)

/-- The descending order `cmp * -1`. -/
theorem descending (h : IsWeakOrderCmp cmp) : IsWeakOrderCmp (fun a b => cmp a b * -1) where
  swap_neg := by
    intro a b
    have := h.swap_neg b a
    constructor <;> intro hh <;> omega
  le_trans := by
    intro a b c h1 h2
    have h3 := h.le_trans c b a ((h.swap_nonpos c b).mpr (by omega))
      ((h.swap_nonpos b a).mpr (by omega))
    have := (h.swap_nonpos c a).mp h3
    omega

/-- The order with the arguments exchanged. -/
theorem flip (h : IsWeakOrderCmp cmp) : IsWeakOrderCmp (fun a b => cmp b a) where
  swap_neg := fun a b => h.swap_neg b a
  le_trans := fun a b c h1 h2 => h.le_trans c b a h2 h1

/-- Two weak orderings in sequence. -/
theorem lex {first second : α → α → Int} (h1 : IsWeakOrderCmp first)
    (h2 : IsWeakOrderCmp second) : IsWeakOrderCmp (lexCmp first second) where
  swap_neg := by
    intro a b
    have hs := h1.swap_neg a b
    have hz := h1.swap_zero a b
    have hs2 := h2.swap_neg a b
    unfold lexCmp
    by_cases hab : first a b = 0
    · have hba : first b a = 0 := hz.mp hab
      simp only [hab, hba, ne_eq, not_true_eq_false, if_false]
      exact hs2
    · have hba : first b a ≠ 0 := fun e => hab (hz.mpr e)
      simp only [ne_eq, hab, hba, not_false_eq_true, if_true]
      exact hs
  le_trans := by
    intro a b c hab hbc
    unfold lexCmp at hab hbc ⊢
    by_cases e1 : first a b = 0
    · by_cases e2 : first b c = 0
      · have e3 : first a c = 0 := h1.eq_trans e1 e2
        simp only [e1, e2, e3, ne_eq, not_true_eq_false, if_false] at hab hbc ⊢
        exact h2.le_trans a b c hab hbc
      · simp only [e1, e2, ne_eq, not_true_eq_false, not_false_eq_true, if_false, if_true] at hab hbc
        have f1 : first a b ≤ 0 := by omega
        have f2 : first b c < 0 := by omega
        have e3 : first a c < 0 := h1.lt_of_le_of_lt f1 f2
        have e4 : first a c ≠ 0 := by omega
        simp only [ne_eq, e4, not_false_eq_true, if_true]
        omega
    · simp only [e1, ne_eq, not_false_eq_true, if_true] at hab
      have hbc2 : first b c ≤ 0 := by
        by_cases e2 : first b c = 0
        · omega
        · simp only [e2, ne_eq, not_false_eq_true, if_true] at hbc
          exact hbc
      have f1 : first a b < 0 := by omega
      have e3 : first a c < 0 := h1.lt_of_lt_of_le f1 hbc2
      have e4 : first a c ≠ 0 := by omega
      simp only [ne_eq, e4, not_false_eq_true, if_true]
      omega

end IsWeakOrderCmp

theorem sinkLeft_perm {α : Type} (cmp : α → α → Int) (x : α) (left : List α) :
    (sinkLeft cmp x left).Perm (x :: left) := by
  induction left with
  | nil => exact List.Perm.refl _
  | cons y left ih =>
    unfold sinkLeft
    by_cases h : cmp x y < 0
    · simp only [h, if_true]
      exact ((List.Perm.cons y ih).trans (List.Perm.swap x y left))
    · simp only [h, if_false]
      exact List.Perm.refl _

theorem sinkLeft_sorted {α : Type} {cmp : α → α → Int} (hcmp : IsWeakOrderCmp cmp) (x : α)
    (left : List α) (h : left.Pairwise (fun a b => cmp b a ≤ 0)) :
    (sinkLeft cmp x left).Pairwise (fun a b => cmp b a ≤ 0) := by
  induction left with
  | nil => simp [sinkLeft]
  | cons y left ih =>
    have hy := (List.pairwise_cons.mp h)
    unfold sinkLeft
    by_cases hxy : cmp x y < 0
    · simp only [hxy, if_true]
      refine List.pairwise_cons.mpr ⟨?_, ih hy.2⟩
      intro z hz
      rcases List.mem_cons.mp ((sinkLeft_perm cmp x left).subset hz) with rfl | hz
      · omega
      · exact hy.1 z hz
    · simp only [hxy, if_false]
      have hyx : cmp y x ≤ 0 := (hcmp.swap_nonpos y x).mpr (by omega)
      refine List.pairwise_cons.mpr ⟨?_, h⟩
      intro z hz
      rcases List.mem_cons.mp hz with rfl | hz
      · exact hyx
      · exact hcmp.le_trans z y x (hy.1 z hz) hyx

theorem insertionSort_fold {α : Type} {cmp : α → α → Int} (hcmp : IsWeakOrderCmp cmp)
    (data : List α) :
    ∀ acc : List α, acc.Pairwise (fun a b => cmp b a ≤ 0) →
      (data.foldl (fun sortedRev x => sinkLeft cmp x sortedRev) acc).Pairwise (fun a b => cmp b a ≤ 0) ∧
      (data.foldl (fun sortedRev x => sinkLeft cmp x sortedRev) acc).Perm (data.reverse ++ acc) := by
  induction data with
  | nil => intro acc h; exact ⟨h, by simp⟩
  | cons x data ih =>
    intro acc h
    obtain ⟨hs, hp⟩ := ih (sinkLeft cmp x acc) (sinkLeft_sorted hcmp x acc h)
    refine ⟨hs, hp.trans ?_⟩
    simp only [List.reverse_cons, List.append_assoc, List.singleton_append]
    exact List.Perm.append_left _ (sinkLeft_perm cmp x acc)

/-- The insertion sort returns a rearrangement of its input in which no element
is greater than a later one. -/
theorem insertionSortCmpFunc_sorted_perm {α : Type} {cmp : α → α → Int}
    (hcmp : IsWeakOrderCmp cmp) (data : List α) :
    (insertionSortCmpFunc cmp data).Perm data ∧
      (insertionSortCmpFunc cmp data).Pairwise (fun a b => cmp a b ≤ 0) := by
  obtain ⟨hs, hp⟩ := insertionSort_fold hcmp data [] List.Pairwise.nil
  unfold insertionSortCmpFunc
  constructor
  · refine (List.reverse_perm _).trans (hp.trans ?_)
    simp
  · exact List.pairwise_reverse.mpr hs

/-! ## The comparison functions of the report -/

theorem stringsCompare_neg_iff (a b : String) : stringsCompare a b < 0 ↔ a.data < b.data := by
  unfold stringsCompare
  by_cases h : a = b
  · subst h; simp
  · by_cases h2 : a.data < b.data <;> simp [h, h2]

theorem stringsCompare_zero_iff (a b : String) : stringsCompare a b = 0 ↔ a = b := by
  unfold stringsCompare
  by_cases h : a = b
  · simp [h]
  · by_cases h2 : a.data < b.data <;> simp [h, h2]

theorem stringsCompare_nonpos_iff (a b : String) : stringsCompare a b ≤ 0 ↔ a.data ≤ b.data := by
  unfold stringsCompare
  by_cases h : a = b
  · subst h; simp
  · by_cases h2 : a.data < b.data
    · simp [h, h2, le_of_lt h2]
    · have hne : a.data ≠ b.data := fun e => h (String.ext e)
      have : ¬ a.data ≤ b.data := fun hle => h2 (lt_of_le_of_ne hle hne)
      simp [h, h2, this]

theorem stringsCompare_pos_iff (a b : String) : 0 < stringsCompare a b ↔ b.data < a.data := by
  have h1 := stringsCompare_nonpos_iff a b
  constructor
  · intro h
    by_contra hn
    have := h1.mpr (not_lt.mp hn)
    omega
  · intro h
    by_contra hn
    have := h1.mp (by omega)
    exact absurd h (not_lt.mpr this)

theorem stringsCompare_weak : IsWeakOrderCmp stringsCompare where
  swap_neg := fun a b => (stringsCompare_neg_iff a b).trans (stringsCompare_pos_iff b a).symm
  le_trans := by
    intro a b c h1 h2
    rw [stringsCompare_nonpos_iff] at h1 h2 ⊢
    exact le_trans h1 h2

theorem decimalCmp_neg_iff (a b : ℚ) : decimalCmp a b < 0 ↔ a < b := by
  unfold decimalCmp
  by_cases h : a < b
  · simp [h]
  · by_cases h2 : a = b <;> simp [h, h2]

theorem decimalCmp_pos_iff (a b : ℚ) : 0 < decimalCmp a b ↔ b < a := by
  unfold decimalCmp
  by_cases h : a < b
  · simp [h, not_lt.mpr (le_of_lt h)]
  · by_cases h2 : a = b
    · subst h2; simp
    · have : b < a := lt_of_le_of_ne (not_lt.mp h) (fun e => h2 e.symm)
      simp [h, h2, this]

theorem decimalCmp_zero_iff (a b : ℚ) : decimalCmp a b = 0 ↔ a = b := by
  unfold decimalCmp
  by_cases h : a < b
  · simp [h, ne_of_lt h]
  · by_cases h2 : a = b <;> simp [h, h2]

theorem decimalCmp_nonpos_iff (a b : ℚ) : decimalCmp a b ≤ 0 ↔ a ≤ b := by
  have h := decimalCmp_pos_iff a b
  constructor
  · intro h1
    exact not_lt.mp (fun hlt => by have := h.mpr hlt; omega)
  · intro h1
    by_contra hn
    exact absurd (h.mp (by omega)) (not_lt.mpr h1)

theorem compareCVSSScore_pos_iff (x y : CVSSScore) :
    0 < compareCVSSScore x y ↔ scoreEarlier x y = true := by
  unfold compareCVSSScore scoreEarlier
  cases x.Score <;> cases y.Score <;> simp [decimalCmp_pos_iff]

theorem compareCVSSScore_zero_iff (x y : CVSSScore) :
    compareCVSSScore x y = 0 ↔ scoreTie x y = true := by
  unfold compareCVSSScore scoreTie
  cases x.Score <;> cases y.Score <;> simp [decimalCmp_zero_iff]

theorem compareCVSSScore_weak : IsWeakOrderCmp compareCVSSScore where
  swap_neg := by
    intro a b
    unfold compareCVSSScore
    cases a.Score <;> cases b.Score <;> simp [decimalCmp_neg_iff, decimalCmp_pos_iff]
  le_trans := by
    intro a b c
    unfold compareCVSSScore
    cases a.Score <;> cases b.Score <;> cases c.Score <;>
      simp [decimalCmp_nonpos_iff]
    exact fun h1 h2 => le_trans h1 h2

theorem compareSeverities_eq_lex :
    compareSeverities = lexCmp (fun a b => rankSeverity a - rankSeverity b) stringsCompare := by
  funext a b
  rfl

theorem compareSeverities_weak : IsWeakOrderCmp compareSeverities := by
  rw [compareSeverities_eq_lex]
  exact IsWeakOrderCmp.lex (IsWeakOrderCmp.of_key rankSeverity) stringsCompare_weak

theorem sortFindingsCmp_eq_lex :
    sortFindingsCmp
      = lexCmp (fun a b => compareSeverities a.Severity b.Severity)
          (lexCmp (fun a b => compareCVSSScore a.CVSS3 b.CVSS3 * -1)
            (lexCmp (fun a b => compareCVSSScore a.CVSS2 b.CVSS2 * -1)
              (fun a b => stringsCompare b.Name a.Name))) := by
  funext a b
  unfold sortFindingsCmp lexCmp
  by_cases h1 : compareSeverities a.Severity b.Severity = 0
  · by_cases h3 : compareCVSSScore a.CVSS3 b.CVSS3 = 0
    · by_cases h2 : compareCVSSScore a.CVSS2 b.CVSS2 = 0
      · simp [h1, h3, h2]
      · simp [h1, h3, h2]
    · simp [h1, h3]
  · simp [h1]

/-- The comparison of `sortFindings` is a weak ordering, as `slices.SortFunc`
requires. -/
theorem sortFindingsCmp_weak : IsWeakOrderCmp sortFindingsCmp := by
  rw [sortFindingsCmp_eq_lex]
  refine IsWeakOrderCmp.lex (IsWeakOrderCmp.comap compareSeverities_weak (fun d : Detail => d.Severity)) ?_
  refine IsWeakOrderCmp.lex
    (IsWeakOrderCmp.descending (IsWeakOrderCmp.comap compareCVSSScore_weak (fun d : Detail => d.CVSS3))) ?_
  refine IsWeakOrderCmp.lex
    (IsWeakOrderCmp.descending (IsWeakOrderCmp.comap compareCVSSScore_weak (fun d : Detail => d.CVSS2))) ?_
  exact IsWeakOrderCmp.flip (IsWeakOrderCmp.comap stringsCompare_weak (fun d : Detail => d.Name))

theorem compareSeverities_neg_iff (a b : String) :
    compareSeverities a b < 0 ↔
      rankSeverity a < rankSeverity b ∨ (rankSeverity a = rankSeverity b ∧ a < b) := by
  have hs : stringsCompare a b < 0 ↔ a < b := by
    rw [String.lt_iff_toList_lt]
    exact stringsCompare_neg_iff a b
  by_cases h : rankSeverity a - rankSeverity b = 0
  · have hval : compareSeverities a b = stringsCompare a b := by
      simp [compareSeverities, h]
    have he : rankSeverity a = rankSeverity b := by omega
    have hnl : ¬ rankSeverity a < rankSeverity b := by omega
    rw [hval]
    tauto
  · have hval : compareSeverities a b = rankSeverity a - rankSeverity b := by
      simp [compareSeverities, h]
    have hne : ¬ rankSeverity a = rankSeverity b := by omega
    have hlt : rankSeverity a - rankSeverity b < 0 ↔ rankSeverity a < rankSeverity b := by omega
    rw [hval]
    tauto

theorem compareSeverities_zero_iff (a b : String) : compareSeverities a b = 0 ↔ a = b := by
  by_cases h : rankSeverity a - rankSeverity b = 0
  · have hval : compareSeverities a b = stringsCompare a b := by
      simp [compareSeverities, h]
    rw [hval]
    exact stringsCompare_zero_iff a b
  · have hval : compareSeverities a b = rankSeverity a - rankSeverity b := by
      simp [compareSeverities, h]
    rw [hval]
    constructor
    · intro h0; exact absurd h0 h
    · intro he; subst he; omega

/-- The comparison of `sortFindings` reports "not greater" exactly when the
first finding is ordered no later than the second in the four-level order
(severity by rank, then alphabetically within a rank). -/
theorem sortFindingsCmp_nonpos_iff (a b : Detail) : sortFindingsCmp a b ≤ 0 ↔ noLater a b := by
  have hsn := compareSeverities_neg_iff a.Severity b.Severity
  have hsz := compareSeverities_zero_iff a.Severity b.Severity
  have h3p := compareCVSSScore_pos_iff a.CVSS3 b.CVSS3
  have h3z := compareCVSSScore_zero_iff a.CVSS3 b.CVSS3
  have h2p := compareCVSSScore_pos_iff a.CVSS2 b.CVSS2
  have h2z := compareCVSSScore_zero_iff a.CVSS2 b.CVSS2
  have hn : stringsCompare b.Name a.Name ≤ 0 ↔ b.Name ≤ a.Name := by
    rw [String.le_iff_toList_le]
    exact stringsCompare_nonpos_iff b.Name a.Name
  unfold noLater scoresNoLater
  by_cases hs : compareSeverities a.Severity b.Severity = 0
  · have hse : a.Severity = b.Severity := hsz.mp hs
    have hre : rankSeverity a.Severity = rankSeverity b.Severity := by rw [hse]
    have hrl : ¬ rankSeverity a.Severity < rankSeverity b.Severity := by omega
    have hsl : ¬ a.Severity < b.Severity := by rw [hse]; exact lt_irrefl _
    by_cases h3 : compareCVSSScore a.CVSS3 b.CVSS3 = 0
    · have t3 : scoreTie a.CVSS3 b.CVSS3 = true := h3z.mp h3
      have e3 : ¬ scoreEarlier a.CVSS3 b.CVSS3 = true := fun e => by have := h3p.mpr e; omega
      by_cases h2 : compareCVSSScore a.CVSS2 b.CVSS2 = 0
      · have t2 : scoreTie a.CVSS2 b.CVSS2 = true := h2z.mp h2
        have e2 : ¬ scoreEarlier a.CVSS2 b.CVSS2 = true := fun e => by have := h2p.mpr e; omega
        have hval : sortFindingsCmp a b = stringsCompare b.Name a.Name := by
          simp [sortFindingsCmp, hs, h3, h2]
        rw [hval]
        constructor
        · intro h
          exact Or.inr ⟨hre, Or.inr ⟨hse, Or.inr ⟨t3, Or.inr ⟨t2, hn.mp h⟩⟩⟩⟩
        · intro h
          rcases h with h | ⟨_, h | ⟨_, h | ⟨_, h | ⟨_, h⟩⟩⟩⟩
          · exact absurd h hrl
          · exact absurd h hsl
          · exact absurd h e3
          · exact absurd h e2
          · exact hn.mpr h
      · have t2 : ¬ scoreTie a.CVSS2 b.CVSS2 = true := fun e => h2 (h2z.mpr e)
        have hval : sortFindingsCmp a b = compareCVSSScore a.CVSS2 b.CVSS2 * -1 := by
          simp [sortFindingsCmp, hs, h3, h2]
        have hx : compareCVSSScore a.CVSS2 b.CVSS2 * -1 ≤ 0 ↔ 0 < compareCVSSScore a.CVSS2 b.CVSS2 := by
          omega
        rw [hval]
        constructor
        · intro h
          exact Or.inr ⟨hre, Or.inr ⟨hse, Or.inr ⟨t3, Or.inl (h2p.mp (hx.mp h))⟩⟩⟩
        · intro h
          rcases h with h | ⟨_, h | ⟨_, h | ⟨_, h | ⟨ht, _⟩⟩⟩⟩
          · exact absurd h hrl
          · exact absurd h hsl
          · exact absurd h e3
          · exact hx.mpr (h2p.mpr h)
          · exact absurd ht t2
    · have t3 : ¬ scoreTie a.CVSS3 b.CVSS3 = true := fun e => h3 (h3z.mpr e)
      have hval : sortFindingsCmp a b = compareCVSSScore a.CVSS3 b.CVSS3 * -1 := by
        simp [sortFindingsCmp, hs, h3]
      have hx : compareCVSSScore a.CVSS3 b.CVSS3 * -1 ≤ 0 ↔ 0 < compareCVSSScore a.CVSS3 b.CVSS3 := by
        omega
      rw [hval]
      constructor
      · intro h
        exact Or.inr ⟨hre, Or.inr ⟨hse, Or.inl (h3p.mp (hx.mp h))⟩⟩
      · intro h
        rcases h with h | ⟨_, h | ⟨_, h | ⟨ht, _⟩⟩⟩
        · exact absurd h hrl
        · exact absurd h hsl
        · exact hx.mpr (h3p.mpr h)
        · exact absurd ht t3
  · have hse : ¬ a.Severity = b.Severity := fun e => hs (hsz.mpr e)
    have hval : sortFindingsCmp a b = compareSeverities a.Severity b.Severity := by
      simp [sortFindingsCmp, hs]
    have hx : compareSeverities a.Severity b.Severity ≤ 0 ↔ compareSeverities a.Severity b.Severity < 0 := by
      omega
    rw [hval]
    constructor
    · intro h
      rcases hsn.mp (hx.mp h) with h1 | ⟨h1, h2⟩
      · exact Or.inl h1
      · exact Or.inr ⟨h1, Or.inl h2⟩
    · intro h
      rcases h with h | ⟨hr, h | ⟨he, _⟩⟩
      · exact hx.mpr (hsn.mpr (Or.inl h))
      · exact hx.mpr (hsn.mpr (Or.inr ⟨hr, h⟩))
      · exact absurd he hse

/-! ## The library's sort: the embedded first round -/

theorem bitsLen_ne_zero (n : Nat) (h : 0 < n) : bitsLen n ≠ 0 := by
  obtain ⟨m, rfl⟩ : ∃ m, n = m + 1 := ⟨n - 1, by omega⟩
  simp [bitsLen, bitsLenAux]

theorem slicesSortFunc_short {α : Type} (otherPhases : (α → α → Int) → List α → List α)
    (cmp : α → α → Int) (x : List α) (h : x.length ≤ 12) :
    slicesSortFunc otherPhases cmp x = insertionSortCmpFunc cmp x := by
  simp [slicesSortFunc, h]

theorem adjacentOrdered_pairwise {α : Type} {cmp : α → α → Int} (hcmp : IsWeakOrderCmp cmp) :
    ∀ x : List α, adjacentOrdered cmp x = true → x.Pairwise (fun a b => cmp a b ≤ 0)
  | [], _ => List.Pairwise.nil
  | [_], _ => by simp
  | u :: v :: rest, h => by
    simp only [adjacentOrdered, Bool.and_eq_true, Bool.not_eq_true', decide_eq_false_iff_not] at h
    have huv : cmp u v ≤ 0 := (hcmp.swap_nonpos u v).mpr (by omega)
    have hrest := adjacentOrdered_pairwise hcmp (v :: rest) h.2
    refine List.pairwise_cons.mpr ⟨?_, hrest⟩
    intro w hw
    rcases List.mem_cons.mp hw with rfl | hw
    · exact huv
    · exact hcmp.le_trans u v w huv ((List.pairwise_cons.mp hrest).1 w hw)

theorem adjacentOrdered_of_pairwise {α : Type} {cmp : α → α → Int} (hcmp : IsWeakOrderCmp cmp) :
    ∀ x : List α, x.Pairwise (fun a b => cmp a b ≤ 0) → adjacentOrdered cmp x = true
  | [], _ => rfl
  | [_], _ => rfl
  | u :: v :: rest, h => by
    have huv : cmp u v ≤ 0 := (List.pairwise_cons.mp h).1 v (by simp)
    have hvu : ¬ cmp v u < 0 := by
      have := (hcmp.swap_nonpos u v).mp huv
      omega
    have hrest := adjacentOrdered_of_pairwise hcmp (v :: rest) (List.pairwise_cons.mp h).2
    simp [adjacentOrdered, hvu, hrest]

/-- In a sorted slice the element at a later index is never less than the one
at an earlier index. -/
theorem lessAt_of_sorted {α : Type} {cmp : α → α → Int} (hcmp : IsWeakOrderCmp cmp)
    (x : List α) (h : x.Pairwise (fun a b => cmp a b ≤ 0)) (a b : Nat) (hab : a < b) :
    lessAt cmp x b a = false := by
  unfold lessAt
  cases hb : x[b]? with
  | none => rfl
  | some v =>
    cases ha : x[a]? with
    | none => rfl
    | some u =>
      obtain ⟨hbl, hbv⟩ := List.getElem?_eq_some.mp hb
      obtain ⟨hal, hau⟩ := List.getElem?_eq_some.mp ha
      have hle : cmp u v ≤ 0 := by
        have := List.pairwise_iff_getElem.mp h a b hal hbl hab
        rwa [hau, hbv] at this
      have := (hcmp.swap_nonpos u v).mp hle
      simp only [decide_eq_false_iff_not]
      omega

theorem order2CmpFunc_of_sorted {α : Type} {cmp : α → α → Int} (hcmp : IsWeakOrderCmp cmp)
    (x : List α) (h : x.Pairwise (fun a b => cmp a b ≤ 0)) (a b swaps : Nat) (hab : a < b) :
    order2CmpFunc cmp x a b swaps = (a, b, swaps) := by
  simp [order2CmpFunc, lessAt_of_sorted hcmp x h a b hab]

theorem medianCmpFunc_of_sorted {α : Type} {cmp : α → α → Int} (hcmp : IsWeakOrderCmp cmp)
    (x : List α) (h : x.Pairwise (fun a b => cmp a b ≤ 0)) (a b c swaps : Nat)
    (hab : a < b) (hbc : b < c) :
    medianCmpFunc cmp x a b c swaps = (b, swaps) := by
  simp [medianCmpFunc, order2CmpFunc_of_sorted hcmp x h a b swaps hab,
    order2CmpFunc_of_sorted hcmp x h b c swaps hbc]

/-- On a sorted slice of more than twelve elements `choosePivotCmpFunc` makes
no swap and hints at increasing order. -/
theorem choosePivotCmpFunc_of_sorted {α : Type} {cmp : α → α → Int} (hcmp : IsWeakOrderCmp cmp)
    (x : List α) (h : x.Pairwise (fun a b => cmp a b ≤ 0)) (n : Nat) (hn : 12 < n) :
    (choosePivotCmpFunc cmp x 0 n).2 = sortedHint.increasingHint := by
  have h8 : n ≥ 8 := by omega
  have m1 : ∀ a s, 1 ≤ a → medianAdjacentCmpFunc cmp x a s = (a, s) := by
    intro a s ha
    unfold medianAdjacentCmpFunc
    exact medianCmpFunc_of_sorted hcmp x h (a - 1) a (a + 1) s (by omega) (by omega)
  unfold choosePivotCmpFunc
  by_cases h50 : n ≥ 50
  · have e1 := m1 (0 + n / 4 * 1) 0 (by omega)
    have e2 := m1 (0 + n / 4 * 2) 0 (by omega)
    have e3 := m1 (0 + n / 4 * 3) 0 (by omega)
    have e4 := medianCmpFunc_of_sorted hcmp x h (0 + n / 4 * 1) (0 + n / 4 * 2)
      (0 + n / 4 * 3) 0 (by omega) (by omega)
    simp only [Nat.sub_zero, ge_iff_le, h8, h50, if_true, e1, e2, e3, e4]
  · have e4 := medianCmpFunc_of_sorted hcmp x h (0 + n / 4 * 1) (0 + n / 4 * 2)
      (0 + n / 4 * 3) 0 (by omega) (by omega)
    simp only [Nat.sub_zero, ge_iff_le, h8, h50, if_true, if_false, e4]

theorem sinkLeft_of_not_less {α : Type} (cmp : α → α → Int) (x : α) (left : List α)
    (h : ∀ y ∈ left, ¬ cmp x y < 0) : sinkLeft cmp x left = x :: left := by
  cases left with
  | nil => rfl
  | cons y left =>
    have hy : ¬ cmp x y < 0 := h y (by simp)
    simp [sinkLeft, hy]

theorem insertionSort_fold_of_sorted {α : Type} {cmp : α → α → Int} (hcmp : IsWeakOrderCmp cmp)
    (data : List α) :
    ∀ acc : List α, (acc.reverse ++ data).Pairwise (fun a b => cmp a b ≤ 0) →
      data.foldl (fun sortedRev x => sinkLeft cmp x sortedRev) acc = data.reverse ++ acc := by
  induction data with
  | nil => intro acc _; simp
  | cons x data ih =>
    intro acc h
    have hx : ∀ y ∈ acc, ¬ cmp x y < 0 := by
      intro y hy
      have hyx : cmp y x ≤ 0 := by
        have h2 := List.pairwise_append.mp h
        exact h2.2.2 y (by simpa using hy) x (by simp)
      have := (hcmp.swap_nonpos y x).mp hyx
      omega
    rw [List.foldl_cons, sinkLeft_of_not_less cmp x acc hx]
    rw [ih (x :: acc) (by simpa using h)]
    simp

/-- The insertion sort leaves a sorted slice as it is. -/
theorem insertionSortCmpFunc_of_sorted {α : Type} {cmp : α → α → Int} (hcmp : IsWeakOrderCmp cmp)
    (data : List α) (h : data.Pairwise (fun a b => cmp a b ≤ 0)) :
    insertionSortCmpFunc cmp data = data := by
  unfold insertionSortCmpFunc
  rw [insertionSort_fold_of_sorted hcmp data [] (by simpa using h)]
  simp

/-- The insertion sort, put in the place of the phases that are not embedded,
keeps the promise of `slices.SortFunc`. -/
theorem insertionSort_sortsAscending {α : Type} :
    SortsAscending (fun (cmp : α → α → Int) (x : List α) => insertionSortCmpFunc cmp x) :=
  fun _ hcmp x => insertionSortCmpFunc_sorted_perm hcmp x

/-- `slices.SortFunc` returns a rearrangement of the slice in ascending order,
on each of its paths: the insertion sort, the early return of a slice found
sorted, and the phases that are not embedded, for which this is the promise of
the library. -/
theorem slicesSortFunc_sorted_perm {α : Type} {otherPhases : (α → α → Int) → List α → List α}
    (hphases : SortsAscending otherPhases) {cmp : α → α → Int} (hcmp : IsWeakOrderCmp cmp)
    (x : List α) :
    (slicesSortFunc otherPhases cmp x).Perm x ∧
      (slicesSortFunc otherPhases cmp x).Pairwise (fun a b => cmp a b ≤ 0) := by
  unfold slicesSortFunc
  by_cases hshort : x.length ≤ 12
  · simp only [hshort, if_true]
    exact insertionSortCmpFunc_sorted_perm hcmp x
  · simp only [hshort, if_false]
    by_cases hlimit : bitsLen x.length = 0
    · simp only [hlimit, if_true]
      exact hphases cmp hcmp x
    · simp only [hlimit, if_false]
      cases hp : choosePivotCmpFunc cmp x 0 x.length with
      | mk pivot hint =>
        cases hint with
        | unknownHint => exact hphases cmp hcmp x
        | decreasingHint => exact hphases cmp hcmp x
        | increasingHint =>
          by_cases hord : adjacentOrdered cmp x = true
          · simp only [hord, if_true]
            exact ⟨List.Perm.refl x, adjacentOrdered_pairwise hcmp x hord⟩
          · simp only [hord]
            exact hphases cmp hcmp x

/-- `slices.SortFunc` returns a sorted slice as it is, at every length: up to
twelve elements the insertion sort moves nothing, and beyond that the pivot
choice makes no swap, hints at increasing order, and the partial insertion sort
finds no element less than its left neighbour. -/
theorem slicesSortFunc_of_sorted {α : Type} (otherPhases : (α → α → Int) → List α → List α)
    {cmp : α → α → Int} (hcmp : IsWeakOrderCmp cmp) (x : List α)
    (h : x.Pairwise (fun a b => cmp a b ≤ 0)) :
    slicesSortFunc otherPhases cmp x = x := by
  unfold slicesSortFunc
  by_cases hshort : x.length ≤ 12
  · simp only [hshort, if_true]
    exact insertionSortCmpFunc_of_sorted hcmp x h
  · have hlimit : bitsLen x.length ≠ 0 := bitsLen_ne_zero _ (by omega)
    have hhint := choosePivotCmpFunc_of_sorted hcmp x h x.length (by omega)
    have hord := adjacentOrdered_of_pairwise hcmp x h
    simp only [hshort, if_false, hlimit]
    cases hp : choosePivotCmpFunc cmp x 0 x.length with
    | mk pivot hint =>
      rw [hp] at hhint
      simp only at hhint
      subst hhint
      simp only [hord, if_true]

/-! ## `sortFindings` -/

theorem sortFindings_short (otherPhases : (Detail → Detail → Int) → List Detail → List Detail)
    (findings : List Detail) (h : findings.length ≤ 12) :
    sortFindings otherPhases findings = insertionSortCmpFunc sortFindingsCmp findings :=
  slicesSortFunc_short otherPhases sortFindingsCmp findings h

/-- C10: whatever the phases of the library's sort that are not embedded do
within the promise of `slices.SortFunc`, `sortFindings` returns a rearrangement
of its input in which every element is ordered no later than each element
after it, in particular than its successor, under the four-level comparison:
severity rank ascending (alphabetical among severities of one rank); then CVSS3
score descending, a missing score after a present one and two missing scores
tying; then CVSS2 score in the same way; then name descending. The two
examples of the specification sort as it says. -/
theorem sortFindings_sorted_perm
    (otherPhases : (Detail → Detail → Int) → List Detail → List Detail)
    (hphases : SortsAscending otherPhases) (findings : List Detail) :
    (sortFindings otherPhases findings).Perm findings ∧
    (sortFindings otherPhases findings).Pairwise noLater ∧
    (sortFindings otherPhases findings).Chain' noLater ∧
    sortFindings otherPhases
        [{ Name := "CVE-b", Description := "", URI := "", Severity := "HIGH", PackageName := "",
           PackageVersion := "", CVSS2 := ⟨none, ""⟩, CVSS3 := ⟨none, ""⟩, Ignore := none },
         { Name := "CVE-a", Description := "", URI := "", Severity := "CRITICAL", PackageName := "",
           PackageVersion := "", CVSS2 := ⟨none, ""⟩, CVSS3 := ⟨none, ""⟩, Ignore := none }]
      = [{ Name := "CVE-a", Description := "", URI := "", Severity := "CRITICAL", PackageName := "",
           PackageVersion := "", CVSS2 := ⟨none, ""⟩, CVSS3 := ⟨none, ""⟩, Ignore := none },
         { Name := "CVE-b", Description := "", URI := "", Severity := "HIGH", PackageName := "",
           PackageVersion := "", CVSS2 := ⟨none, ""⟩, CVSS3 := ⟨none, ""⟩, Ignore := none }] ∧
    sortFindings otherPhases
        [{ Name := "CVE-y", Description := "", URI := "", Severity := "HIGH", PackageName := "",
           PackageVersion := "", CVSS2 := ⟨none, ""⟩, CVSS3 := ⟨some 5, ""⟩, Ignore := none },
         { Name := "CVE-x", Description := "", URI := "", Severity := "HIGH", PackageName := "",
           PackageVersion := "", CVSS2 := ⟨none, ""⟩, CVSS3 := ⟨some 9, ""⟩, Ignore := none }]
      = [{ Name := "CVE-x", Description := "", URI := "", Severity := "HIGH", PackageName := "",
           PackageVersion := "", CVSS2 := ⟨none, ""⟩, CVSS3 := ⟨some 9, ""⟩, Ignore := none },
         { Name := "CVE-y", Description := "", URI := "", Severity := "HIGH", PackageName := "",
           PackageVersion := "", CVSS2 := ⟨none, ""⟩, CVSS3 := ⟨some 5, ""⟩, Ignore := none }] := by
  obtain ⟨hperm, hsorted⟩ := slicesSortFunc_sorted_perm hphases sortFindingsCmp_weak findings
  have hpair : (sortFindings otherPhases findings).Pairwise noLater :=
    hsorted.imp (fun {a b} h => (sortFindingsCmp_nonpos_iff a b).mp h)
  refine ⟨hperm, hpair, List.Pairwise.chain' hpair, ?_, ?_⟩
  · rw [sortFindings_short _ _ (by decide)]
    decide
  · rw [sortFindings_short _ _ (by decide)]
    decide

/-- C10 at fourteen findings, with the insertion sort in the place of the
phases that are not embedded. -/
theorem sortFindings_sorted_perm_witness :
    SortsAscending (fun (cmp : Detail → Detail → Int) (x : List Detail) => insertionSortCmpFunc cmp x) ∧
    (sortFindings (fun cmp x => insertionSortCmpFunc cmp x) sampleDetails).Perm sampleDetails ∧
    (sortFindings (fun cmp x => insertionSortCmpFunc cmp x) sampleDetails).Pairwise noLater :=
  ⟨insertionSort_sortsAscending,
    (sortFindings_sorted_perm (fun cmp x => insertionSortCmpFunc cmp x)
      insertionSort_sortsAscending sampleDetails).1,
    (sortFindings_sorted_perm (fun cmp x => insertionSortCmpFunc cmp x)
      insertionSort_sortsAscending sampleDetails).2.1⟩

/-- The pivot choice on the fourteen sample findings: the median of the
elements at the indices 3, 6 and 9 is the one at index 9, found with one swap,
so there is no hint and the slice goes on to the partitioning. -/
theorem choosePivotCmpFunc_sample_value :
    choosePivotCmpFunc sortFindingsCmp sampleDetails 0 14 = (9, sortedHint.unknownHint) := by
  decide

/-! ## `sortFindings` is idempotent -/

/-- C11: whatever the phases of the library's sort that are not embedded do
within the promise of `slices.SortFunc`, `sortFindings` is idempotent: sorting
the result of `sortFindings` again returns it unchanged; and every sequence
that is already in the order of the comparison is returned as it is, at every
length. This covers findings that compare as equal: the three `CVE-g` findings
of the repository's test, which differ only in their package, keep the order
the first sort gave them. -/
theorem sortFindings_idempotent
    (otherPhases : (Detail → Detail → Int) → List Detail → List Detail)
    (hphases : SortsAscending otherPhases) (findings : List Detail) :
    sortFindings otherPhases (sortFindings otherPhases findings)
      = sortFindings otherPhases findings ∧
    (∀ ordered : List Detail, ordered.Pairwise noLater →
      sortFindings otherPhases ordered = ordered) ∧
    sortFindings otherPhases (sortFindings otherPhases tiedDetails)
      = [{ Name := "CVE-h", Description := "", URI := "", Severity := "HIGH", PackageName := "",
           PackageVersion := "", CVSS2 := ⟨none, ""⟩, CVSS3 := ⟨some 9, ""⟩, Ignore := none },
         { Name := "CVE-g", Description := "", URI := "", Severity := "HIGH", PackageName := "g-3",
           PackageVersion := "", CVSS2 := ⟨some 8, ""⟩, CVSS3 := ⟨none, ""⟩, Ignore := none },
         { Name := "CVE-g", Description := "", URI := "", Severity := "HIGH", PackageName := "g-1",
           PackageVersion := "", CVSS2 := ⟨some 8, ""⟩, CVSS3 := ⟨none, ""⟩, Ignore := none },
         { Name := "CVE-g", Description := "", URI := "", Severity := "HIGH", PackageName := "g-2",
           PackageVersion := "", CVSS2 := ⟨some 8, ""⟩, CVSS3 := ⟨none, ""⟩, Ignore := none }] := by
  have hsorted := (slicesSortFunc_sorted_perm hphases sortFindingsCmp_weak findings).2
  refine ⟨slicesSortFunc_of_sorted otherPhases sortFindingsCmp_weak _ hsorted, ?_, ?_⟩
  · intro ordered hordered
    exact slicesSortFunc_of_sorted otherPhases sortFindingsCmp_weak ordered
      (hordered.imp (fun {a b} h => (sortFindingsCmp_nonpos_iff a b).mpr h))
  · have hinner : sortFindings otherPhases tiedDetails
        = insertionSortCmpFunc sortFindingsCmp tiedDetails :=
      sortFindings_short otherPhases tiedDetails (by decide)
    rw [hinner, sortFindings_short otherPhases _ (by decide)]
    decide

/-- C11 at fourteen findings, with the insertion sort in the place of the
phases that are not embedded: the second sort takes the early return of the
library for a slice found sorted. -/
theorem sortFindings_idempotent_witness :
    SortsAscending (fun (cmp : Detail → Detail → Int) (x : List Detail) => insertionSortCmpFunc cmp x) ∧
    sortFindings (fun cmp x => insertionSortCmpFunc cmp x)
        (sortFindings (fun cmp x => insertionSortCmpFunc cmp x) sampleDetails)
      = sortFindings (fun cmp x => insertionSortCmpFunc cmp x) sampleDetails :=
  ⟨insertionSort_sortsAscending,
    (sortFindings_idempotent (fun cmp x => insertionSortCmpFunc cmp x)
      insertionSort_sortsAscending sampleDetails).1⟩

/-- A sorted slice of fourteen findings with ties is returned as it is even
when the phases that are not embedded would reverse it: they are not reached. -/
theorem sortFindings_sorted_sample_value :
    sortFindings (fun _ x => x.reverse)
        (insertionSortCmpFunc sortFindingsCmp sampleDetails)
      = insertionSortCmpFunc sortFindingsCmp sampleDetails := by
  decide

/-! ## `sortSeverities` -/

theorem compareSeverities_antisymm (a b : String) (hab : compareSeverities a b ≤ 0)
    (hba : compareSeverities b a ≤ 0) : a = b := by
  have h := (compareSeverities_weak.swap_nonpos b a).mp hba
  exact (compareSeverities_zero_iff a b).mp (by omega)

/-- The sort by `compareSeverities` depends on the elements only, not on the
order they come in. -/
theorem sortSeverities_order_free
    (otherPhases : (String → String → Int) → List String → List String)
    (hphases : SortsAscending otherPhases) (keys keys' : List String) (h : keys'.Perm keys) :
    slicesSortFunc otherPhases compareSeverities keys'
      = slicesSortFunc otherPhases compareSeverities keys := by
  obtain ⟨hp, hs⟩ := slicesSortFunc_sorted_perm hphases compareSeverities_weak keys
  obtain ⟨hp', hs'⟩ := slicesSortFunc_sorted_perm hphases compareSeverities_weak keys'
  have hperm : (slicesSortFunc otherPhases compareSeverities keys').Perm
      (slicesSortFunc otherPhases compareSeverities keys) := (hp'.trans h).trans hp.symm
  haveI : IsAntisymm String (fun a b => compareSeverities a b ≤ 0) :=
    ⟨fun a b hab hba => compareSeverities_antisymm a b hab hba⟩
  exact List.eq_of_perm_of_sorted hperm hs' hs

theorem rankSeverity_unrecognized (s : String) (h : s ∉ recognizedSeverities) :
    rankSeverity s = 100 := by
  simp only [recognizedSeverities, List.mem_cons, List.mem_singleton, List.not_mem_nil,
    or_false, not_or] at h
  obtain ⟨h1, h2, h3, h4, h5, h6⟩ := h
  simp [rankSeverity, h1, h2, h3, h4, h5, h6]

/-- C12: for a severity-count map, given as its entries in iteration order with
distinct keys, and whatever the phases of the library's sort that are not
embedded do within the promise of `slices.SortFunc`: the result of
`sortSeverities` holds exactly the keys of the entries, each once, so it is as
long as the map; each key stands before every key of higher rank and, within
one rank, before every key that follows it alphabetically; the ranks are
CRITICAL 0, HIGH 1, MEDIUM 2, LOW 3, INFORMATIONAL 4, UNDEFINED 5 and 100 for
every other severity, so the unrecognized ones come last, in alphabetical
order; and the result is the same for every iteration order of the entries.
The keys HIGH, AA-BOGUS-SEVERITY, CRITICAL give CRITICAL, HIGH,
AA-BOGUS-SEVERITY. -/
theorem sortSeverities_ranked
    (otherPhases : (String → String → Int) → List String → List String)
    (hphases : SortsAscending otherPhases)
    (severityCounts : List (String × SeverityCount))
    (hmap : (severityCounts.map (fun entry => entry.1)).Nodup) :
    (∀ severity, severity ∈ sortSeverities otherPhases severityCounts ↔
      ∃ count, (severity, count) ∈ severityCounts) ∧
    (sortSeverities otherPhases severityCounts).Nodup ∧
    (sortSeverities otherPhases severityCounts).length = severityCounts.length ∧
    (sortSeverities otherPhases severityCounts).Pairwise severityBefore ∧
    (∀ reordered : List (String × SeverityCount), reordered.Perm severityCounts →
      sortSeverities otherPhases reordered = sortSeverities otherPhases severityCounts) ∧
    (rankSeverity "CRITICAL" = 0 ∧ rankSeverity "HIGH" = 1 ∧ rankSeverity "MEDIUM" = 2 ∧
      rankSeverity "LOW" = 3 ∧ rankSeverity "INFORMATIONAL" = 4 ∧ rankSeverity "UNDEFINED" = 5 ∧
      ∀ s, s ∉ recognizedSeverities → rankSeverity s = 100) ∧
    sortSeverities otherPhases
        [("HIGH", ⟨1, 0⟩), ("AA-BOGUS-SEVERITY", ⟨1, 0⟩), ("CRITICAL", ⟨1, 0⟩)]
      = ["CRITICAL", "HIGH", "AA-BOGUS-SEVERITY"] := by
  obtain ⟨hp, hs⟩ := slicesSortFunc_sorted_perm hphases compareSeverities_weak
    (mapsKeys severityCounts)
  have hp2 : (sortSeverities otherPhases severityCounts).Perm
      (severityCounts.map (fun entry => entry.1)) := hp
  have hnodup : (sortSeverities otherPhases severityCounts).Nodup := hp2.nodup_iff.mpr hmap
  refine ⟨?_, hnodup, ?_, ?_, ?_, ?_, ?_⟩
  · intro severity
    rw [hp2.mem_iff, List.mem_map]
    constructor
    · rintro ⟨entry, hentry, rfl⟩
      exact ⟨entry.2, hentry⟩
    · rintro ⟨count, hentry⟩
      exact ⟨(severity, count), hentry, rfl⟩
  · rw [hp2.length_eq, List.length_map]
  · have hboth := List.Pairwise.and hs hnodup
    refine hboth.imp ?_
    intro a b hab
    have hne : compareSeverities a b ≠ 0 := fun h0 => hab.2 ((compareSeverities_zero_iff a b).mp h0)
    exact (compareSeverities_neg_iff a b).mp (by have := hab.1; omega)
  · intro reordered hperm
    exact sortSeverities_order_free otherPhases hphases (mapsKeys severityCounts)
      (mapsKeys reordered) (List.Perm.map Prod.fst hperm)
  · exact ⟨by decide, by decide, by decide, by decide, by decide, by decide,
      rankSeverity_unrecognized⟩
  · have hshort : sortSeverities otherPhases
          [("HIGH", ⟨1, 0⟩), ("AA-BOGUS-SEVERITY", ⟨1, 0⟩), ("CRITICAL", ⟨1, 0⟩)]
        = insertionSortCmpFunc compareSeverities ["HIGH", "AA-BOGUS-SEVERITY", "CRITICAL"] :=
      slicesSortFunc_short otherPhases compareSeverities
        ["HIGH", "AA-BOGUS-SEVERITY", "CRITICAL"] (by decide)
    rw [hshort]
    decide

/-- C12 at fourteen severities, six recognized and eight not, with the
insertion sort in the place of the phases that are not embedded. -/
theorem sortSeverities_ranked_witness :
    SortsAscending (fun (cmp : String → String → Int) (x : List String) => insertionSortCmpFunc cmp x) ∧
    (sampleSeverityCounts.map (fun entry => entry.1)).Nodup ∧
    sortSeverities (fun cmp x => insertionSortCmpFunc cmp x) sampleSeverityCounts
      = ["CRITICAL", "HIGH", "MEDIUM", "LOW", "INFORMATIONAL", "UNDEFINED", "ALPHA", "BETA",
         "DELTA", "EPSILON", "ETA", "GAMMA", "THETA", "ZETA"] ∧
    (sortSeverities (fun cmp x => insertionSortCmpFunc cmp x) sampleSeverityCounts).Pairwise
      severityBefore :=
  ⟨insertionSort_sortsAscending, by decide, by decide,
    (sortSeverities_ranked (fun cmp x => insertionSortCmpFunc cmp x) insertionSort_sortsAscending
      sampleSeverityCounts (by decide)).2.2.2.1⟩

/-! ## `GetLabelDigest` -/

/-- C13: when the image-description request succeeds with the response `out`,
`GetLabelDigest` returns an error exactly when `out` lists no image, and then
the zero `RegistryInfo` beside it; when `out` lists images, it returns no
error and the input with `Tag` replaced by the digest of the first image,
`RegistryID`, `Region` and `Name` as they were. -/
theorem GetLabelDigest_digest_of_first (client : ImagesBackend) (imageInfo : RegistryInfo)
    (out : DescribeImagesOutput)
    (hok : client { RegistryId := imageInfo.RegistryID, RepositoryName := imageInfo.Name,
                    ImageTag := imageInfo.Tag } = .ok out) :
    ((GetLabelDigest client imageInfo).2 ≠ none ↔ out.ImageDetails = []) ∧
    (out.ImageDetails = [] →
      GetLabelDigest client imageInfo
        = (RegistryInfo.zero, some ("no image found for image " ++ imageInfo.String))) ∧
    (∀ first others, out.ImageDetails = first :: others →
      GetLabelDigest client imageInfo
        = ({ RegistryID := imageInfo.RegistryID, Region := imageInfo.Region,
             Name := imageInfo.Name, Tag := first.ImageDigest }, none)) := by
  unfold GetLabelDigest
  rw [hok]
  cases hd : out.ImageDetails with
  | nil => simp [hd]
  | cons first others => simp [hd]

/-- C13 at the sample image backend, asked for the tag `latest`. -/
theorem GetLabelDigest_digest_of_first_witness :
    GetLabelDigest sampleImages
        { RegistryID := "123456789012", Region := "us-west-2", Name := "test-repo", Tag := "latest" }
      = ({ RegistryID := "123456789012", Region := "us-west-2", Name := "test-repo",
           Tag := "sha256:hash" }, none) :=
  (GetLabelDigest_digest_of_first sampleImages
    { RegistryID := "123456789012", Region := "us-west-2", Name := "test-repo", Tag := "latest" }
    { ImageDetails := [{ ImageDigest := "sha256:hash", ImageTags := ["latest"] },
                       { ImageDigest := "sha256:other", ImageTags := [] }] }
    rfl).2.2 { ImageDigest := "sha256:hash", ImageTags := ["latest"] }
      [{ ImageDigest := "sha256:other", ImageTags := [] }] rfl

/-- The sample image backend asked for a tag it does not know: the error and
the zero record. -/
theorem GetLabelDigest_no_image_value :
    GetLabelDigest sampleImages
        { RegistryID := "123456789012", Region := "us-west-2", Name := "test-repo", Tag := "v9" }
      = (RegistryInfo.zero,
         some "no image found for image 123456789012.dkr.ecr.us-west-2.amazonaws.com/test-repo:v9") := by
  decide

/-! ## `runCommand`: the threshold decision -/

/-- When every step succeeds, `runCommand` returns the threshold error or
`nil` as `overThreshold` says. -/
theorem runCommand_of_success (env : CommandEnv) (pluginConfig : Config)
    (imageID imageDigest : RegistryInfo) (findings : ScanFindings)
    (hsteps : StepsSucceed env)
    (hparse : RegistryInfoFromURL pluginConfig.Repository = (imageID, none))
    (hdigest : GetLabelDigest env.images imageID = (imageDigest, none))
    (hfetch : GetScanFindings env.scans env.fuel imageDigest pluginConfig.IgnoredVulnerabilities
      = some (some findings, none)) :
    runCommand env pluginConfig
      = .returned (if overThreshold findings.ImageScanFindings pluginConfig
          then some (.fatal "vulnerability threshold exceeded") else none) := by
  obtain ⟨hconfig, hwait, hrender, hannotate, hwrite, hupload⟩ := hsteps
  obtain ⟨rendered, hr⟩ := hrender
    { Image := imageID, ImageLabel := pluginConfig.ImageLabel,
      ScanFindings := findings.ImageScanFindings,
      CriticalSeverityThreshold := pluginConfig.CriticalSeverityThreshold,
      HighSeverityThreshold := pluginConfig.HighSeverityThreshold }
  unfold runCommand
  simp only [hparse, hconfig, NewRegistryScan, hdigest, hwait, hfetch, hr, hannotate, hwrite, hupload]
  split <;> rfl

theorem overThreshold_iff (findings : ImageScanFindings) (pluginConfig : Config) :
    overThreshold findings pluginConfig = true ↔
      (mapIndex findings.FindingSeverityCounts "CRITICAL" > pluginConfig.CriticalSeverityThreshold ∨
        mapIndex findings.FindingSeverityCounts "HIGH" > pluginConfig.HighSeverityThreshold) := by
  simp [overThreshold]

theorem mapIndex_missing (m : List (String × Int)) (key : String) (h : key ∉ m.map Prod.fst) :
    mapIndex m key = 0 := by
  unfold mapIndex
  have hl : m.lookup key = none := by
    induction m with
    | nil => rfl
    | cons e m ih =>
      obtain ⟨k, v⟩ := e
      have hk : key ≠ k := fun e => h (by simp [e])
      have hm : key ∉ m.map Prod.fst := fun hin => h (by simp at hin ⊢; exact Or.inr hin)
      have hb : (key == k) = false := by simp [hk]
      simp [List.lookup, hb, ih hm]
  rw [hl]

/-- C14: when the locator parses and every step outside the program succeeds
(configuration, digest lookup, wait, fetch, render, annotate, artifact write
and upload), `runCommand` returns the error `vulnerability threshold exceeded`
exactly when the CRITICAL count is greater than `CriticalSeverityThreshold` or
the HIGH count is greater than `HighSeverityThreshold`, and returns `nil`
otherwise, in particular when both counts equal their thresholds; a severity
that is no key of the counts map counts as zero. -/
theorem runCommand_threshold (env : CommandEnv) (pluginConfig : Config)
    (imageID imageDigest : RegistryInfo) (findings : ScanFindings)
    (hsteps : StepsSucceed env)
    (hparse : RegistryInfoFromURL pluginConfig.Repository = (imageID, none))
    (hdigest : GetLabelDigest env.images imageID = (imageDigest, none))
    (hfetch : GetScanFindings env.scans env.fuel imageDigest pluginConfig.IgnoredVulnerabilities
      = some (some findings, none)) :
    (runCommand env pluginConfig = .returned (some (.fatal "vulnerability threshold exceeded")) ↔
      (mapIndex findings.ImageScanFindings.FindingSeverityCounts "CRITICAL"
          > pluginConfig.CriticalSeverityThreshold ∨
        mapIndex findings.ImageScanFindings.FindingSeverityCounts "HIGH"
          > pluginConfig.HighSeverityThreshold)) ∧
    (¬ (mapIndex findings.ImageScanFindings.FindingSeverityCounts "CRITICAL"
          > pluginConfig.CriticalSeverityThreshold ∨
        mapIndex findings.ImageScanFindings.FindingSeverityCounts "HIGH"
          > pluginConfig.HighSeverityThreshold) →
      runCommand env pluginConfig = .returned none) ∧
    (mapIndex findings.ImageScanFindings.FindingSeverityCounts "CRITICAL"
          = pluginConfig.CriticalSeverityThreshold →
      mapIndex findings.ImageScanFindings.FindingSeverityCounts "HIGH"
          = pluginConfig.HighSeverityThreshold →
      runCommand env pluginConfig = .returned none) ∧
    (∀ key, key ∉ findings.ImageScanFindings.FindingSeverityCounts.map Prod.fst →
      mapIndex findings.ImageScanFindings.FindingSeverityCounts key = 0) := by
  have hrun := runCommand_of_success env pluginConfig imageID imageDigest findings hsteps hparse
    hdigest hfetch
  have hiff := overThreshold_iff findings.ImageScanFindings pluginConfig
  have hnil : ¬ (mapIndex findings.ImageScanFindings.FindingSeverityCounts "CRITICAL"
          > pluginConfig.CriticalSeverityThreshold ∨
        mapIndex findings.ImageScanFindings.FindingSeverityCounts "HIGH"
          > pluginConfig.HighSeverityThreshold) →
      runCommand env pluginConfig = .returned none := by
    intro hn
    have hf : overThreshold findings.ImageScanFindings pluginConfig = false := by
      cases ho : overThreshold findings.ImageScanFindings pluginConfig
      · rfl
      · exact absurd (hiff.mp ho) hn
    rw [hrun, hf]
    rfl
  refine ⟨?_, hnil, ?_, fun key hkey => mapIndex_missing _ key hkey⟩
  · constructor
    · intro h
      by_contra hn
      rw [hnil hn] at h
      simp at h
    · intro h
      rw [hrun, hiff.mpr h]
      rfl
  · intro hc hh
    apply hnil
    rintro (h | h) <;> omega

theorem sampleEnv_steps : StepsSucceed sampleEnv :=
  ⟨fun _ => rfl, fun _ => rfl, fun _ => ⟨_, rfl⟩, fun _ _ _ => rfl, fun _ _ => rfl, fun _ => rfl⟩

/-- C14 at the sample environment (counts CRITICAL 1, HIGH 2): with the
thresholds 1 and 2 the counts equal the thresholds and `runCommand` returns
`nil`. -/
theorem runCommand_threshold_witness :
    StepsSucceed sampleEnv ∧
    runCommand sampleEnv (sampleConfig 1 2 []) = .returned none :=
  ⟨sampleEnv_steps,
    (runCommand_threshold sampleEnv (sampleConfig 1 2 [])
      { RegistryID := "123456789012", Region := "us-west-2", Name := "test-repo", Tag := "latest" }
      { RegistryID := "123456789012", Region := "us-west-2", Name := "test-repo", Tag := "sha256:hash" }
      { ImageScanFindings :=
          { EnhancedFindings := [sampleEnhanced "CVE-2019-5188 - e2fsprogs" "HIGH",
                                 sampleEnhanced "CVE-2019-5189 - e2fsprogs" "HIGH"],
            FindingSeverityCounts := [("CRITICAL", 1), ("HIGH", 2)],
            Findings := [sampleFinding "CVE-2019-5188" "HIGH", sampleFinding "CVE-2019-5200" "CRITICAL",
                         sampleFinding "CVE-2019-5189" "HIGH", sampleFinding "cve-2019-5200" "LOW"],
            ImageScanCompletedAt := some 2, VulnerabilitySourceUpdatedAt := none } }
      sampleEnv_steps (by decide) (by decide) (by decide)).2.2.1 (by decide) (by decide)⟩

/-- The sample environment evaluated: one more CRITICAL or HIGH finding than
the threshold allows gives the threshold error; counts at the thresholds give
`nil`. -/
theorem runCommand_sample_values :
    runCommand sampleEnv (sampleConfig 0 2 [])
      = .returned (some (.fatal "vulnerability threshold exceeded")) ∧
    runCommand sampleEnv (sampleConfig 1 1 [])
      = .returned (some (.fatal "vulnerability threshold exceeded")) ∧
    runCommand sampleEnv (sampleConfig 1 2 []) = .returned none := by
  decide

/-! ## The counts do not depend on the ignore list -/

/-- `overThreshold` reads the counts and the two thresholds only. -/
theorem overThreshold_congr (findingsA findingsB : ImageScanFindings) (configA configB : Config)
    (hcounts : findingsA.FindingSeverityCounts = findingsB.FindingSeverityCounts)
    (hcrit : configA.CriticalSeverityThreshold = configB.CriticalSeverityThreshold)
    (hhigh : configA.HighSeverityThreshold = configB.HighSeverityThreshold) :
    overThreshold findingsA configA = overThreshold findingsB configB := by
  unfold overThreshold
  rw [hcounts, hcrit, hhigh]

/-- C16: on a backend that serves the page sequence `pages`, the results of
`GetScanFindings` for any two ignore lists carry the same
`FindingSeverityCounts` (those of the last page), while their `Findings` are
filtered each by its own list. So the value `overThreshold` of `runCommand` is
the same for both, and two runs of `runCommand` whose configurations differ
in the ignore list only, with every step succeeding, return the same: ignoring
a finding does not change the counts compared with the thresholds. -/
theorem GetScanFindings_counts_ignore_free (client : ScanBackend) (digestInfo : RegistryInfo)
    (pages : List DescribeImageScanFindingsOutput) (fuel : Nat)
    (hfetch : FetchesPages client digestInfo none pages) (hfuel : pages.length ≤ fuel)
    (ignoreA ignoreB : List String) :
    ∃ resultA resultB,
      GetScanFindings client fuel digestInfo ignoreA = some (some resultA, none) ∧
      GetScanFindings client fuel digestInfo ignoreB = some (some resultB, none) ∧
      resultA.ImageScanFindings.FindingSeverityCounts
        = resultB.ImageScanFindings.FindingSeverityCounts ∧
      resultA.ImageScanFindings.Findings
        = (allFindings pages).filter (fun finding => decide (finding.Name ∉ ignoreA)) ∧
      resultB.ImageScanFindings.Findings
        = (allFindings pages).filter (fun finding => decide (finding.Name ∉ ignoreB)) ∧
      (∀ configA configB : Config,
        configA.CriticalSeverityThreshold = configB.CriticalSeverityThreshold →
        configA.HighSeverityThreshold = configB.HighSeverityThreshold →
        overThreshold resultA.ImageScanFindings configA
          = overThreshold resultB.ImageScanFindings configB) ∧
      (∀ (env : CommandEnv) (configA configB : Config) (imageID : RegistryInfo),
        env.scans = client → env.fuel = fuel → StepsSucceed env →
        configA.IgnoredVulnerabilities = ignoreA → configB.IgnoredVulnerabilities = ignoreB →
        configA.Repository = configB.Repository →
        configA.CriticalSeverityThreshold = configB.CriticalSeverityThreshold →
        configA.HighSeverityThreshold = configB.HighSeverityThreshold →
        RegistryInfoFromURL configA.Repository = (imageID, none) →
        GetLabelDigest env.images imageID = (digestInfo, none) →
        runCommand env configA = runCommand env configB) := by
  obtain ⟨lastA, hlA, hrunA⟩ :=
    GetScanFindings_of_fetches client digestInfo ignoreA pages fuel hfetch hfuel
  obtain ⟨lastB, hlB, hrunB⟩ :=
    GetScanFindings_of_fetches client digestInfo ignoreB pages fuel hfetch hfuel
  have hlast : lastA = lastB := Option.some.inj (hlA.symm.trans hlB)
  subst hlast
  refine ⟨_, _, hrunA, hrunB, rfl, filterFindings_eq _ _, filterFindings_eq _ _, ?_, ?_⟩
  · intro configA configB hcrit hhigh
    exact overThreshold_congr _ _ configA configB rfl hcrit hhigh
  · intro env configA configB imageID hscans hfuelEq hsteps hA hB hrepo hcrit hhigh hparse hdigest
    subst hscans hfuelEq hA hB
    rw [runCommand_of_success env configA imageID digestInfo _ hsteps hparse hdigest hrunA,
      runCommand_of_success env configB imageID digestInfo _ hsteps (hrepo ▸ hparse) hdigest hrunB]
    simp only [overThreshold, hcrit, hhigh]

/-- C16 at the sample scan: with the CRITICAL finding ignored or not, the
counts are those of the last page, and with no CRITICAL finding allowed
`runCommand` returns the threshold error in both runs. -/
theorem GetScanFindings_counts_ignore_free_witness :
    FetchesPages sampleBackend
      { RegistryID := "123456789012", Region := "us-west-2", Name := "test-repo",
        Tag := "sha256:hash" } none [samplePage1, samplePage2] ∧
    runCommand sampleEnv (sampleConfig 0 2 ["CVE-2019-5200"])
      = runCommand sampleEnv (sampleConfig 0 2 []) ∧
    runCommand sampleEnv (sampleConfig 0 2 ["CVE-2019-5200"])
      = .returned (some (.fatal "vulnerability threshold exceeded")) := by
  have hfetch : FetchesPages sampleBackend
      { RegistryID := "123456789012", Region := "us-west-2", Name := "test-repo",
        Tag := "sha256:hash" } none [samplePage1, samplePage2] :=
    FetchesPages.next none samplePage1 [samplePage2] rfl rfl
      (FetchesPages.last (some "t2") samplePage2 rfl rfl)
  obtain ⟨resultA, resultB, -, -, -, -, -, -, hcommand⟩ :=
    GetScanFindings_counts_ignore_free sampleBackend
      { RegistryID := "123456789012", Region := "us-west-2", Name := "test-repo",
        Tag := "sha256:hash" } [samplePage1, samplePage2] 10 hfetch (by decide)
      ["CVE-2019-5200"] []
  exact ⟨hfetch,
    hcommand sampleEnv (sampleConfig 0 2 ["CVE-2019-5200"]) (sampleConfig 0 2 [])
      { RegistryID := "123456789012", Region := "us-west-2", Name := "test-repo", Tag := "latest" }
      rfl rfl sampleEnv_steps rfl rfl rfl rfl rfl (by decide) (by decide),
    by decide⟩

/-! ## `Summarize` -/

theorem matchIgnore_eq_none_iff (ignoreRules : List Ignore) (name : String) :
    matchIgnore ignoreRules name = none ↔ name ∉ ignoreRules.map (fun rule => rule.ID) := by
  unfold matchIgnore
  rw [List.find?_eq_none]
  simp only [beq_iff_eq, List.mem_map, not_exists, not_and]

theorem matchIgnore_some (ignoreRules : List Ignore) (name : String) (rule : Ignore)
    (h : matchIgnore ignoreRules name = some rule) : rule ∈ ignoreRules ∧ rule.ID = name := by
  unfold matchIgnore at h
  exact ⟨List.mem_of_find?_eq_some h, by simpa using List.find?_some h⟩

/-- What the pass of `Summarize` leaves in `Details` and in `Ignored`. -/
theorem summarize_fold (ignoreRules : List Ignore) (findings : List ImageScanFinding) :
    ∀ acc : Summary,
      (findings.foldl (summarizeStep ignoreRules) acc).Details
        = acc.Details ++ (findings.filter
            (fun finding => (matchIgnore ignoreRules finding.Name).isNone)).map findingToDetail ∧
      (findings.foldl (summarizeStep ignoreRules) acc).Ignored
        = acc.Ignored ++ findings.filterMap (fun finding =>
            (matchIgnore ignoreRules finding.Name).map
              (fun rule => { findingToDetail finding with Ignore := some rule })) := by
  induction findings with
  | nil => intro acc; simp
  | cons f fs ih =>
    intro acc
    obtain ⟨hd, hi⟩ := ih (summarizeStep ignoreRules acc f)
    rw [List.foldl_cons, hd, hi]
    cases hm : matchIgnore ignoreRules f.Name with
    | none =>
      have hm2 : matchIgnore ignoreRules (findingToDetail f).Name = none := hm
      simp [summarizeStep, hm, hm2, List.filter_cons, List.filterMap_cons]
    | some rule =>
      have hm2 : matchIgnore ignoreRules (findingToDetail f).Name = some rule := hm
      simp [summarizeStep, hm, hm2, List.filter_cons, List.filterMap_cons]

theorem filter_filterMap_length {α β γ : Type} (xs : List α) (g : α → Option γ) (h : α → γ → β) :
    (xs.filter (fun x => (g x).isNone)).length + (xs.filterMap (fun x => (g x).map (h x))).length
      = xs.length := by
  induction xs with
  | nil => rfl
  | cons x xs ih =>
    cases hg : g x <;> simp [List.filter_cons, List.filterMap_cons, hg] <;> omega

theorem ignored_names (ignoreRules : List Ignore) (findings : List ImageScanFinding) :
    (findings.filterMap (fun finding =>
        (matchIgnore ignoreRules finding.Name).map
          (fun rule => { findingToDetail finding with Ignore := some rule }))).map
        (fun detail => detail.Name)
      = (findings.map (fun finding => finding.Name)).filter
          (fun name => decide (name ∈ ignoreRules.map (fun rule => rule.ID))) := by
  induction findings with
  | nil => rfl
  | cons f fs ih =>
    cases hm : matchIgnore ignoreRules f.Name with
    | none =>
      have hin : f.Name ∉ ignoreRules.map (fun rule => rule.ID) :=
        (matchIgnore_eq_none_iff _ _).mp hm
      rw [List.filterMap_cons_none (by rw [hm]; rfl), List.map_cons,
        List.filter_cons_of_neg (by rw [decide_eq_false hin]; simp), ih]
    | some rule =>
      have hin : f.Name ∈ ignoreRules.map (fun rule => rule.ID) := by
        by_contra hn
        rw [(matchIgnore_eq_none_iff _ _).mpr hn] at hm
        cases hm
      rw [List.filterMap_cons_some (by rw [hm]; rfl), List.map_cons, List.map_cons,
        List.filter_cons_of_pos (by rw [decide_eq_true hin]), ih]
      rfl

/-- C15: `Summarize` partitions the findings: the lengths of `Details` and
`Ignored` add up to the number of findings; the name of a `Details` entry is
the identity of no ignore rule; the name of an `Ignored` entry is the identity
of an ignore rule, and the entry carries that rule; and the names in `Details`
and in `Ignored` are the names of the findings, in input order, that match no
rule and that match a rule. On the findings and rules of the repository's test
`Details` is CVE-2019-5188, CVE-2019-5200 and `Ignored` is CVE-2019-5189. -/
theorem Summarize_partitions (findings : ImageScanFindings) (ignoreRules : List Ignore) :
    (Summarize findings ignoreRules).Details.length + (Summarize findings ignoreRules).Ignored.length
      = findings.Findings.length ∧
    (∀ detail ∈ (Summarize findings ignoreRules).Details,
      ∀ rule ∈ ignoreRules, rule.ID ≠ detail.Name) ∧
    (∀ detail ∈ (Summarize findings ignoreRules).Ignored,
      ∃ rule ∈ ignoreRules, rule.ID = detail.Name ∧ detail.Ignore = some rule) ∧
    (Summarize findings ignoreRules).Details.map (fun detail => detail.Name)
      = (findings.Findings.map (fun finding => finding.Name)).filter
          (fun name => decide (name ∉ ignoreRules.map (fun rule => rule.ID))) ∧
    (Summarize findings ignoreRules).Ignored.map (fun detail => detail.Name)
      = (findings.Findings.map (fun finding => finding.Name)).filter
          (fun name => decide (name ∈ ignoreRules.map (fun rule => rule.ID))) ∧
    (Summarize summaryTestFindings summaryTestIgnores).Details.map (fun detail => detail.Name)
      = ["CVE-2019-5188", "CVE-2019-5200"] ∧
    (Summarize summaryTestFindings summaryTestIgnores).Ignored.map (fun detail => detail.Name)
      = ["CVE-2019-5189"] := by
  obtain ⟨hd, hi⟩ := summarize_fold ignoreRules findings.Findings
    { Counts := [("CRITICAL", { Included := 0, Ignored := 0 }),
                 ("HIGH", { Included := 0, Ignored := 0 })],
      Details := [], Ignored := [] }
  simp only [List.nil_append] at hd hi
  have hD : (Summarize findings ignoreRules).Details
      = (findings.Findings.filter
          (fun finding => (matchIgnore ignoreRules finding.Name).isNone)).map findingToDetail := hd
  have hI : (Summarize findings ignoreRules).Ignored
      = findings.Findings.filterMap (fun finding =>
          (matchIgnore ignoreRules finding.Name).map
            (fun rule => { findingToDetail finding with Ignore := some rule })) := hi
  refine ⟨?_, ?_, ?_, ?_, ?_, by decide, by decide⟩
  · rw [hD, hI, List.length_map]
    exact filter_filterMap_length findings.Findings (fun finding => matchIgnore ignoreRules finding.Name)
      (fun finding rule => { findingToDetail finding with Ignore := some rule })
  · intro detail hmem rule hrule he
    rw [hD] at hmem
    obtain ⟨finding, hf, rfl⟩ := List.mem_map.mp hmem
    have hnone : matchIgnore ignoreRules finding.Name = none := by
      have := (List.mem_filter.mp hf).2
      simpa using this
    exact (matchIgnore_eq_none_iff ignoreRules finding.Name).mp hnone
      (List.mem_map.mpr ⟨rule, hrule, he⟩)
  · intro detail hmem
    rw [hI] at hmem
    obtain ⟨finding, -, hsome⟩ := List.mem_filterMap.mp hmem
    cases hm : matchIgnore ignoreRules finding.Name with
    | none => simp [hm] at hsome
    | some rule =>
      simp only [hm, Option.map_some', Option.some.injEq] at hsome
      subst hsome
      obtain ⟨hr, hid⟩ := matchIgnore_some ignoreRules finding.Name rule hm
      exact ⟨rule, hr, hid, rfl⟩
  · rw [hD, List.map_map, List.filter_map]
    have hfun : ((fun detail : Detail => detail.Name) ∘ findingToDetail)
        = (fun finding : ImageScanFinding => finding.Name) := rfl
    rw [hfun]
    congr 1
    apply List.filter_congr
    intro finding _
    show (matchIgnore ignoreRules finding.Name).isNone
      = decide (finding.Name ∉ ignoreRules.map (fun rule => rule.ID))
    by_cases hin : finding.Name ∈ ignoreRules.map (fun rule => rule.ID)
    · rw [decide_eq_false (not_not.mpr hin)]
      cases hm : matchIgnore ignoreRules finding.Name with
      | none => exact absurd hin ((matchIgnore_eq_none_iff _ _).mp hm)
      | some rule => rfl
    · rw [decide_eq_true hin, (matchIgnore_eq_none_iff ignoreRules finding.Name).mpr hin]
      rfl
  · rw [hI]
    exact ignored_names ignoreRules findings.Findings

end EcrScanResults
